import Mathlib

/-!
Verification development for the wamp-rs WAMP v2 router/client library.

The Rust sources are shallowly embedded as executable Lean definitions:

* `src/messages/mod.rs` and `src/messages/types/*`: the `Message` sum type and
  its codec are modelled over a `WireValue` tree, the common data model that
  both the JSON framing (`serde_json`) and the MessagePack framing
  (`rmp_serde` with `StructMapWriter`) render faithfully and injectively;
  those two byte-level renderings live in external crates and are out of
  scope, so the repository's codec (its `Serialize`/`Deserialize` impls)
  is exactly the pair `encodeMessage` / `decodeMessage` below.
* `src/router/patterns.rs`: the subscription trie `PatternNode`, with
  `subscribe_with` / `add_subscription` / `unsubscribe_with` /
  `remove_subscription`, and the `MatchIterator` traversal flattened into the
  recursive function `filterBits` (the lazy push-down automaton of
  `MatchIterator::traverse` enumerated eagerly, in its exact yield order).
* `src/router/mod.rs` and `src/router/handshake.rs`: `random_id`,
  `handle_publish`, `set_realm` / `handle_hello`, `process_protocol`.
* `src/client.rs`: the receive-task dispatcher `Connection::handle_message`.

Randomness (`random_id`) is modelled by an explicit supply of fresh
identifiers threaded through the state: `random_id` draws a value that is
fresh with respect to all previously drawn values (collisions have
probability ≈ 2⁻⁵⁶ and the code ignores them), which the supply makes exact.

Rust `HashMap`s are modelled as association lists; the router only ever
accesses them through single-key lookup/insert/remove, for which the models
agree with any hash map.
-/

namespace WampRs

/-! ### Basic wire types, from src/src/lib.rs and src/src/messages/types -/

/-- `type ID = u64` (lib.rs). All identifiers the router draws lie far below
2⁶⁴, so `Nat` with explicit bounds models `u64` without overflow. -/
abbrev ID := Nat

/-- `enum MatchingPolicy` from src/src/messages/types/mod.rs (variants in
source order: Prefix, Wildcard, Strict). -/
inductive MatchingPolicy where
  | Prefix
  | Wildcard
  | Strict
deriving DecidableEq, Repr

/-- `impl Default for MatchingPolicy` returns `Strict`. -/
def MatchingPolicy.default : MatchingPolicy := .Strict

/-- `impl serde::Serialize for MatchingPolicy`
(src/src/messages/types/mod.rs lines 144-156): Prefix ↦ "prefix",
Wildcard ↦ "wildcard", Strict ↦ "" (the empty string). -/
def MatchingPolicy.serialize : MatchingPolicy → String
  | .Prefix => "prefix"
  | .Wildcard => "wildcard"
  | .Strict => ""

/-- `MatchingPolicyVisitor::visit_str`
(src/src/messages/types/mod.rs lines 175-188): only "prefix" and
"wildcard" are accepted; anything else is a custom deserialize error. -/
def MatchingPolicy.visit_str (value : String) : Except String MatchingPolicy :=
  match value with
  | "prefix" => .ok .Prefix
  | "wildcard" => .ok .Wildcard
  | x => .error ("Invalid matching policy: " ++ x)

/-! ### random_id, from src/src/router/mod.rs lines 66-70

```
fn random_id() -> u64 {
    let mut rng = thread_rng();
    let between = Range::new(0, 1u64.rotate_left(56) - 1);
    between.ind_sample(&mut rng)
}
```
-/

/-- `u64::rotate_left`: the bits shifted out on the left re-enter on the
right; on `u64` this is `(x << n | x >> (64 - n)) mod 2^64`. -/
def u64_rotate_left (x n : Nat) : Nat :=
  ((x <<< n) % 2 ^ 64) ||| (x >>> (64 - n))

/-- The upper bound handed to `Range::new` in `random_id`:
`1u64.rotate_left(56) - 1`. -/
def random_id_high : Nat := u64_rotate_left 1 56 - 1

/-- The support of `random_id`. The rand crate's `Range::new(low, high)`
samples uniformly from the half-open interval `[low, high)` (documented
behaviour of `rand::distributions::Range`, an external crate), so the
possible outputs are exactly the naturals below `random_id_high`. -/
def random_id_support (n : Nat) : Prop := n < random_id_high

instance : DecidablePred random_id_support := fun n =>
  inferInstanceAs (Decidable (n < random_id_high))

/-! ### Protocol negotiation, from src/src/router/handshake.rs lines 67-79

`process_protocol` walks the offered sub-protocols in the order the client
listed them and accepts the first that equals `WAMP_JSON` or
`WAMP_MSGPACK`; if the loop finishes, the upgrade is rejected with a
protocol error. -/

/-- `static WAMP_JSON: &str = "wamp.2.json"` (router/mod.rs line 63). -/
def WAMP_JSON : String := "wamp.2.json"

/-- `static WAMP_MSGPACK: &str = "wamp.2.msgpack"` (router/mod.rs line 64). -/
def WAMP_MSGPACK : String := "wamp.2.msgpack"

/-- `ConnectionHandler::process_protocol` (handshake.rs lines 67-79),
returning the sub-protocol recorded into `info.protocol` and echoed in the
upgrade response, or a websocket protocol error. -/
def process_protocol : List String → Except String String
  | [] => .error ("Neither " ++ WAMP_JSON ++ " nor " ++ WAMP_MSGPACK ++
      " were selected as Websocket sub-protocols")
  | protocol :: rest =>
      if protocol = WAMP_JSON ∨ protocol = WAMP_MSGPACK then
        .ok protocol
      else
        process_protocol rest

/-! ### The subscription pattern trie, from src/src/router/patterns.rs

URIs are dot-delimited strings; every trie operation in the source begins by
splitting the URI at '.' (`topic.uri.split(".")`, `uri.split('.')`), and all
further work is on the resulting fragment sequence.  The embedding takes that
fragment list (`List String`) directly: Rust's `split('.')` yields at least
one fragment (the empty URI splits to `[""]`, `".a"` to `["", "a"]`), and a
fragment never contains a dot, so the fragment list determines the URI. -/

/-- `struct DataWrapper` (patterns.rs lines 77-80): a stored subscription.
The trie is generic over `P: PatternData`, used only through `get_id`;
the embedding instantiates `P` with the subscriber's ID. -/
structure DataWrapper where
  subscriber : Nat
  policy : MatchingPolicy
deriving DecidableEq, Repr

/-- `struct PatternNode` (patterns.rs lines 64-70).  The `HashMap` of edges
is modelled as an association list; the trie accesses it only through
single-key entry/lookup, for which the two agree. -/
inductive PatternNode where
  | mk (edges : List (String × PatternNode))
       (connections : List DataWrapper)
       (prefix_connections : List DataWrapper)
       (id : Nat)
       (prefix_id : Nat)

/-- The `edges` field. -/
def PatternNode.edges : PatternNode → List (String × PatternNode)
  | .mk e _ _ _ _ => e

/-- The `connections` field (the exact-match bag). -/
def PatternNode.connections : PatternNode → List DataWrapper
  | .mk _ c _ _ _ => c

/-- The `prefix_connections` field (the prefix-match bag). -/
def PatternNode.prefix_connections : PatternNode → List DataWrapper
  | .mk _ _ p _ _ => p

/-- The `id` field (the exact-match bag's stable ID). -/
def PatternNode.id : PatternNode → Nat
  | .mk _ _ _ i _ => i

/-- The `prefix_id` field (the prefix bag's stable ID). -/
def PatternNode.prefix_id : PatternNode → Nat
  | .mk _ _ _ _ p => p

/-- Replace the `edges` field. -/
def PatternNode.withEdges : PatternNode → List (String × PatternNode) → PatternNode
  | .mk _ c p i pi, e => .mk e c p i pi

/-- Replace the `connections` field. -/
def PatternNode.withConnections : PatternNode → List DataWrapper → PatternNode
  | .mk e _ p i pi, c => .mk e c p i pi

/-- Replace the `prefix_connections` field. -/
def PatternNode.withPrefixConnections : PatternNode → List DataWrapper → PatternNode
  | .mk e c _ i pi, p => .mk e c p i pi

/-- `PatternNode::new` (patterns.rs lines 174-182): a fresh node whose `id`
and `prefix_id` are two fresh `random_id()` draws, taken here from the
freshness supply `gen` (returning the advanced supply). -/
def PatternNode.new (gen : Nat) : PatternNode × Nat :=
  (.mk [] [] [] gen (gen + 1), gen + 2)

/-- Association-list lookup standing in for `HashMap::get` on the edges. -/
def lookupEdge : List (String × PatternNode) → String → Option PatternNode
  | [], _ => none
  | (k, n) :: rest, key => if k = key then some n else lookupEdge rest key

/-- Association-list update of an existing key, standing in for writing
through the `&mut` reference obtained from `entry`/`get_mut`. -/
def setEdge : List (String × PatternNode) → String → PatternNode → List (String × PatternNode)
  | [], _, _ => []
  | (k, n) :: rest, key, n' =>
      if k = key then (k, n') :: rest else (k, n) :: setEdge rest key n'

/-- `PatternNode::add_subscription` (patterns.rs lines 184-211).  Walks and
creates nodes along the remaining fragments; an empty fragment under a
non-Wildcard policy is rejected with `Reason::InvalidURI` (modelled as
`Except.error ()`); at the end the wrapper is pushed onto the prefix bag
(returning `prefix_id`) when the policy is Prefix, else onto the exact bag
(returning `id`).  The functional update discards the empty intermediate
nodes that Rust's `entry().or_insert` creates on a path that later errors;
those nodes carry no bag entries. -/
def PatternNode.add_subscription (n : PatternNode) (uri_bits : List String)
    (subscriber : Nat) (matching_policy : MatchingPolicy) (gen : Nat) :
    Except Unit (ID × PatternNode × Nat) :=
  match uri_bits with
  | uri_bit :: rest =>
      if uri_bit.length = 0 ∧ matching_policy ≠ .Wildcard then
        .error ()
      else
        match lookupEdge n.edges uri_bit with
        | some child =>
            match child.add_subscription rest subscriber matching_policy gen with
            | .ok (i, child', gen') =>
                .ok (i, n.withEdges (setEdge n.edges uri_bit child'), gen')
            | .error e => .error e
        | none =>
            match (PatternNode.new gen).1.add_subscription rest subscriber
                matching_policy (PatternNode.new gen).2 with
            | .ok (i, child', gen') =>
                .ok (i, n.withEdges (n.edges ++ [(uri_bit, child')]), gen')
            | .error e => .error e
  | [] =>
      if matching_policy = .Prefix then
        .ok (n.prefix_id,
          n.withPrefixConnections
            (n.prefix_connections ++ [⟨subscriber, matching_policy⟩]), gen)
      else
        .ok (n.id,
          n.withConnections (n.connections ++ [⟨subscriber, matching_policy⟩]), gen)

/-- `PatternNode::subscribe_with` (patterns.rs lines 156-164), after the
URI has been split into fragments.  The first fragment is consumed by
`uri_bits.next()` and fed to `entry().or_insert` with **no** emptiness
check (only the `None` branch errors, and `split` never yields an empty
sequence, so that branch is dead); the remaining fragments go through
`add_subscription`, which does check. -/
def PatternNode.subscribe_with (n : PatternNode) (uri_bits : List String)
    (subscriber : Nat) (matching_policy : MatchingPolicy) (gen : Nat) :
    Except Unit (ID × PatternNode × Nat) :=
  match uri_bits with
  | [] => .error ()
  | initial :: rest =>
      match lookupEdge n.edges initial with
      | some child =>
          match child.add_subscription rest subscriber matching_policy gen with
          | .ok (i, child', gen') =>
              .ok (i, n.withEdges (setEdge n.edges initial child'), gen')
          | .error e => .error e
      | none =>
          match (PatternNode.new gen).1.add_subscription rest subscriber
              matching_policy (PatternNode.new gen).2 with
          | .ok (i, child', gen') =>
              .ok (i, n.withEdges (n.edges ++ [(initial, child')]), gen')
          | .error e => .error e

/-- `PatternNode::remove_subscription` (patterns.rs lines 213-233).  Walks
existing nodes along the fragments (a missing edge is
`Reason::InvalidURI`); at the end, entries whose subscriber ID matches are
retained out of the selected bag (`fromPrefixBag` is the source's boolean
flag choosing the prefix bag), and that bag's stable ID is returned. -/
def PatternNode.remove_subscription (n : PatternNode) (uri_bits : List String)
    (subscriber_id : Nat) (fromPrefixBag : Bool) : Except Unit (ID × PatternNode) :=
  match uri_bits with
  | uri_bit :: rest =>
      match lookupEdge n.edges uri_bit with
      | some edge =>
          match edge.remove_subscription rest subscriber_id fromPrefixBag with
          | .ok (i, edge') => .ok (i, n.withEdges (setEdge n.edges uri_bit edge'))
          | .error e => .error e
      | none => .error ()
  | [] =>
      if fromPrefixBag then
        .ok (n.prefix_id,
          n.withPrefixConnections
            (n.prefix_connections.filter (fun sub => sub.subscriber ≠ subscriber_id)))
      else
        .ok (n.id,
          n.withConnections
            (n.connections.filter (fun sub => sub.subscriber ≠ subscriber_id)))

/-- `PatternNode::unsubscribe_with` (patterns.rs lines 167-170): splits the
topic and delegates every fragment (including the first) to
`remove_subscription`. -/
def PatternNode.unsubscribe_with (n : PatternNode) (uri_bits : List String)
    (subscriber_id : Nat) (fromPrefixBag : Bool) : Except Unit (ID × PatternNode) :=
  n.remove_subscription uri_bits subscriber_id fromPrefixBag

/-- The `MatchIterator` traversal (`MatchIterator::traverse` /
`Iterator::next`, patterns.rs lines 268-362) enumerated eagerly in its
exact yield order.  Per visited node, the push-down automaton steps
None → Prefix (yield the prefix bag with `prefix_id`) → PrefixComplete,
then: all fragments consumed → Subs (yield the exact bag — the source's
`next` pairs these entries with `self.current.node.prefix_id`, patterns.rs
line 351, **not** with `id`); otherwise it pushes the empty-string child
(consuming one fragment), and on return pushes the child keyed by that
same fragment, then pops. -/
def PatternNode.filterBits (n : PatternNode) (rem : List String) :
    List (Nat × ID × MatchingPolicy) :=
  (n.prefix_connections.map fun w => (w.subscriber, n.prefix_id, w.policy)) ++
  match rem with
  | [] => n.connections.map fun w => (w.subscriber, n.prefix_id, w.policy)
  | f :: rest =>
      (match lookupEdge n.edges "" with
       | some child => child.filterBits rest
       | none => []) ++
      (match lookupEdge n.edges f with
       | some child => child.filterBits rest
       | none => [])

/-- `PatternNode::filter` (patterns.rs lines 240-250) on the split URI. -/
def PatternNode.filter (n : PatternNode) (uri_bits : List String) :
    List (Nat × ID × MatchingPolicy) :=
  n.filterBits uri_bits

/-! ### Specification-side view of the trie

The following definitions do not come from the source; they give the
declarative reading of the trie that claim C4 compares the code against:
which entries a trie stores (with the fragment path leading to them and the
bag holding them), and when a stored pattern matches a literal URI under a
matching policy. -/

mutual

/-- All entries stored in a trie, each with the fragment path from this node
to its node and the bag holding it (`true` = prefix bag). -/
def PatternNode.storedEntries : PatternNode → List (List String × Bool × DataWrapper)
  | .mk edges conns pres _ _ =>
      (pres.map fun w => ([], true, w)) ++
      (conns.map fun w => ([], false, w)) ++
      storedEntriesOfEdges edges

/-- Entries stored below a list of edges, paths extended by the edge label. -/
def storedEntriesOfEdges : List (String × PatternNode) → List (List String × Bool × DataWrapper)
  | [] => []
  | (k, child) :: rest =>
      (child.storedEntries.map fun e => (k :: e.1, e.2)) ++ storedEntriesOfEdges rest

end

/-- Single-level wildcard matching: same number of fragments, and each
pattern fragment is either empty (matches any fragment) or equal to the
corresponding URI fragment. -/
def wildcardMatches : List String → List String → Bool
  | [], [] => true
  | p :: ps, u :: us => (p == "" || p == u) && wildcardMatches ps us
  | _, _ => false

/-- When a stored pattern matches a literal URI under a matching policy:
Strict requires fragment-wise equality, Prefix requires the pattern's
fragments to be a prefix of the URI's, Wildcard is `wildcardMatches`. -/
def policyMatches (pat : List String) (policy : MatchingPolicy) (uri : List String) : Bool :=
  match policy with
  | .Strict => pat == uri
  | .Prefix => pat.isPrefixOf uri
  | .Wildcard => wildcardMatches pat uri

/-- Structural well-formedness maintained by the trie operations: at every
node the edge labels are distinct (a `HashMap` cannot hold a key twice). -/
inductive PatternNode.WF : PatternNode → Prop where
  | mk {edges : List (String × PatternNode)} {conns pres : List DataWrapper}
      {i pi : Nat} :
      (edges.map Prod.fst).Nodup →
      (∀ p ∈ edges, PatternNode.WF p.2) →
      PatternNode.WF (.mk edges conns pres i pi)

/-- The invariant `subscribe_with` keeps on stored entries (given nonempty
first fragments for non-Wildcard policies): prefix-bag entries hold the
Prefix policy, exact-bag entries do not, and entries of a non-Wildcard
policy sit on paths with no empty fragment. -/
def goodEntry (e : List String × Bool × DataWrapper) : Prop :=
  (e.2.1 = true → e.2.2.policy = .Prefix) ∧
  (e.2.1 = false → e.2.2.policy ≠ .Prefix) ∧
  (e.2.2.policy ≠ .Wildcard → ∀ f ∈ e.1, f ≠ "")

/-- An interleaving step on the trie: a `subscribe_with` or an
`unsubscribe_with` call (inputs already split into fragments). -/
inductive TrieOp where
  | subscribe (uri_bits : List String) (subscriber : Nat) (policy : MatchingPolicy)
  | unsubscribe (uri_bits : List String) (subscriber_id : Nat) (fromPrefixBag : Bool)

/-- Run one operation against the trie and the freshness supply; a call
that returns an error leaves the stored entries unchanged. -/
def applyOp (st : PatternNode × Nat) : TrieOp → PatternNode × Nat
  | .subscribe bits sub pol =>
      match st.1.subscribe_with bits sub pol st.2 with
      | .ok (_, n', gen') => (n', gen')
      | .error _ => st
  | .unsubscribe bits sid fromPre =>
      match st.1.unsubscribe_with bits sid fromPre with
      | .ok (_, n') => (n', st.2)
      | .error _ => st

/-- Run a whole interleaving of operations. -/
def applyOps (ops : List TrieOp) (st : PatternNode × Nat) : PatternNode × Nat :=
  ops.foldl applyOp st

/-- The operation avoids the unchecked first fragment: a subscription under
a non-Wildcard policy does not use an empty first fragment (which
`subscribe_with` fails to reject — see C8). -/
def TrieOp.wf : TrieOp → Prop
  | .subscribe bits _ pol =>
      pol ≠ .Wildcard → ∀ h ∈ bits.take 1, h ≠ ""
  | .unsubscribe _ _ _ => True

instance : DecidablePred TrieOp.wf := fun op => by
  cases op <;> simp [TrieOp.wf] <;> infer_instance

/-- `filterBits` instrumented with the position of each yield in the
traversal: at a node reached by the key `key`, prefix-bag entries get
`key ++ [0]`, the exact bag gets `key ++ [1]`, the wildcard subtree extends
`key ++ [1]`, and the strictly-matching subtree extends `key ++ [2]`
(the exact bag and the subtrees never coexist).  Projecting the wrapper
out recovers `filterBits` (lemma `filterAnnot_fst`). -/
def PatternNode.filterAnnot (n : PatternNode) (rem : List String) (key : List Nat) :
    List (List Nat × DataWrapper) :=
  (n.prefix_connections.map fun w => (key ++ [0], w)) ++
  match rem with
  | [] => n.connections.map fun w => (key ++ [1], w)
  | f :: rest =>
      (match lookupEdge n.edges "" with
       | some child => child.filterAnnot rest (key ++ [1])
       | none => []) ++
      (match lookupEdge n.edges f with
       | some child => child.filterAnnot rest (key ++ [2])
       | none => [])

/-- Non-strict lexicographic order on traversal positions. -/
def klex (a b : List Nat) : Prop :=
  List.Lex (· < ·) a b ∨ a = b

/-- The (subscriber, policy) pairs the traversal yields for a URI. -/
def outPairs (n : PatternNode) (rem : List String) : List (Nat × MatchingPolicy) :=
  (n.filterBits rem).map fun y => (y.1, y.2.2)

/-- The (subscriber, policy) pairs of the stored entries whose pattern
matches the URI under that entry's policy — the set the claim compares
`filter` against. -/
def matchingStored (n : PatternNode) (rem : List String) : List (Nat × MatchingPolicy) :=
  (n.storedEntries.filter fun e => policyMatches e.1 e.2.2.policy rem).map
    fun e => (e.2.2.subscriber, e.2.2.policy)

/-- As `matchingStored`, for the entries below a list of edges. -/
def matchingStoredEdges (es : List (String × PatternNode)) (rem : List String) :
    List (Nat × MatchingPolicy) :=
  ((storedEntriesOfEdges es).filter fun e => policyMatches e.1 e.2.2.policy rem).map
    fun e => (e.2.2.subscriber, e.2.2.policy)

/-- The invariant of reachable tries: structurally well-formed, and every
stored entry is in the right bag on a path its policy allows. -/
def goodNode (n : PatternNode) : Prop :=
  n.WF ∧ ∀ e ∈ n.storedEntries, goodEntry e

/-! ### The WAMP value model, from src/src/messages/types/value.rs -/

/-- `enum Value` (value.rs lines 23-32); constructor names are lowercased
versions of the Rust variants `Dict`, `Integer`, `String`, `List`,
`Boolean` (integers are `i64`).  `Dict = HashMap<String, Value>` is
modelled as an association list, and `List = Vec<Value>` as a list. -/
inductive Value where
  | dict (d : List (String × Value))
  | integer (i : Int)
  | str (s : String)
  | list (l : List Value)
  | boolean (b : Bool)

/-- `type Dict = HashMap<String, Value>`. -/
abbrev Dict := List (String × Value)

/-! ### The serde data model

`serde_json` renders the serde data model as a JSON text frame and
`rmp_serde` (with `StructMapWriter`, so maps stay maps) renders it as a
MessagePack binary frame; both renderings are faithful and injective and
live in external crates.  The repository's own codec — its
`Serialize`/`Deserialize` impls in src/src/messages — is the translation
between `Message` and this tree, embedded below as
`encodeMessage`/`decodeMessage`. -/

/-- The serde data model restricted to what the WAMP schema emits:
integers, strings, booleans, sequences and string-keyed maps. -/
inductive WireValue where
  | int (n : Int)
  | str (s : String)
  | bool (b : Bool)
  | arr (xs : List WireValue)
  | map (kvs : List (String × WireValue))

mutual

/-- `impl serde::Serialize for Value` (value.rs lines 223-235). -/
def encodeValue : Value → WireValue
  | .dict d => .map (encodeEntries d)
  | .integer i => .int i
  | .str s => .str s
  | .list l => .arr (encodeValues l)
  | .boolean b => .bool b

/-- Serialization of a `Vec<Value>`. -/
def encodeValues : List Value → List WireValue
  | [] => []
  | v :: vs => encodeValue v :: encodeValues vs

/-- Serialization of a `HashMap<String, Value>` (iteration order is the
association list's order). -/
def encodeEntries : List (String × Value) → List (String × WireValue)
  | [] => []
  | (k, v) :: rest => (k, encodeValue v) :: encodeEntries rest

end

mutual

/-- `ValueVisitor` (value.rs lines 159-218): strings, signed and unsigned
integers, booleans, maps and sequences each map to the corresponding
`Value` variant; no input is rejected. -/
def decodeValue : WireValue → Value
  | .int n => .integer n
  | .str s => .str s
  | .bool b => .boolean b
  | .arr xs => .list (decodeValues xs)
  | .map kvs => .dict (decodeEntries kvs)

/-- Element-wise `ValueVisitor::visit_seq`. -/
def decodeValues : List WireValue → List Value
  | [] => []
  | x :: xs => decodeValue x :: decodeValues xs

/-- Element-wise `ValueVisitor::visit_map`. -/
def decodeEntries : List (String × WireValue) → List (String × Value)
  | [] => []
  | (k, x) :: xs => (k, decodeValue x) :: decodeEntries xs

end

/-! ### Reasons and error types, from src/src/messages.rs -/

/-- `enum Reason` (messages.rs lines 64-83). -/
inductive Reason where
  | InvalidURI
  | NoSuchProcedure
  | ProcedureAlreadyExists
  | NoSuchRegistration
  | NoSuchSubscription
  | InvalidArgument
  | SystemShutdown
  | CloseRealm
  | GoodbyeAndOut
  | NotAuthorized
  | AuthorizationFailed
  | NoSuchRealm
  | NoSuchRole
  | Cancelled
  | OptionNotAllowed
  | NoEligibleCallee
  | OptionDisallowedDiscloseMe
  | NetworkFailure
deriving DecidableEq, Repr

/-- `impl serde::Serialize for Reason` (messages.rs lines 279-305). -/
def Reason.serialize : Reason → String
  | .InvalidURI => "wamp.error.invalid_uri"
  | .NoSuchProcedure => "wamp.error.no_such_procedure"
  | .ProcedureAlreadyExists => "wamp.error.procedure_already_exists"
  | .NoSuchRegistration => "wamp.error.no_such_registration"
  | .NoSuchSubscription => "wamp.error.no_such_subscription"
  | .InvalidArgument => "wamp.error.invalid_argument"
  | .SystemShutdown => "wamp.error.system_shutdown"
  | .CloseRealm => "wamp.error.close_realm"
  | .GoodbyeAndOut => "wamp.error.goodbye_and_out"
  | .NotAuthorized => "wamp.error.not_authorized"
  | .AuthorizationFailed => "wamp.error.authorization_failed"
  | .NoSuchRealm => "wamp.error.no_such_realm"
  | .NoSuchRole => "wamp.error.no_such_role"
  | .Cancelled => "wamp.error.cancelled"
  | .OptionNotAllowed => "wamp.error.option_not_allowed"
  | .NoEligibleCallee => "wamp.error.no_eligible_callee"
  | .OptionDisallowedDiscloseMe => "wamp.error.option-disallowed.disclose_me"
  | .NetworkFailure => "wamp.error.network_failure"

/-- `ReasonVisitor::visit_str` (messages.rs lines 317-346). -/
def Reason.visit_str (value : String) : Except String Reason :=
  match value with
  | "wamp.error.invalid_uri" => .ok .InvalidURI
  | "wamp.error.no_such_procedure" => .ok .NoSuchProcedure
  | "wamp.error.procedure_already_exists" => .ok .ProcedureAlreadyExists
  | "wamp.error.no_such_registration" => .ok .NoSuchRegistration
  | "wamp.error.no_such_subscription" => .ok .NoSuchSubscription
  | "wamp.error.invalid_argument" => .ok .InvalidArgument
  | "wamp.error.system_shutdown" => .ok .SystemShutdown
  | "wamp.error.close_realm" => .ok .CloseRealm
  | "wamp.error.goodbye_and_out" => .ok .GoodbyeAndOut
  | "wamp.error.not_authorized" => .ok .NotAuthorized
  | "wamp.error.authorization_failed" => .ok .AuthorizationFailed
  | "wamp.error.no_such_realm" => .ok .NoSuchRealm
  | "wamp.error.no_such_role" => .ok .NoSuchRole
  | "wamp.error.cancelled" => .ok .Cancelled
  | "wamp.error.option_not_allowed" => .ok .OptionNotAllowed
  | "wamp.error.no_eligible_callee" => .ok .NoEligibleCallee
  | "wamp.error.option-disallowed.disclose_me" => .ok .OptionDisallowedDiscloseMe
  | "wamp.error.network_failure" => .ok .NetworkFailure
  | x => .error ("Invalid error uri " ++ x)

/-- `enum ErrorType` (messages.rs lines 87-95). -/
inductive ErrorType where
  | Subscribe
  | Unsubscribe
  | Publish
  | Register
  | Unregister
  | Invocation
  | Call
deriving DecidableEq, Repr

/-- `impl serde::Serialize for ErrorType` (messages.rs lines 389-404):
each variant serializes as the tag of the request it refers to. -/
def ErrorType.serialize : ErrorType → Int
  | .Subscribe => 32
  | .Unsubscribe => 34
  | .Publish => 16
  | .Register => 64
  | .Unregister => 66
  | .Invocation => 68
  | .Call => 48

/-- `ErrorTypeVisitor::visit_u64` (messages.rs lines 421-435). -/
def ErrorType.visit_u64 (value : Int) : Except String ErrorType :=
  if value = 32 then .ok .Subscribe
  else if value = 34 then .ok .Unsubscribe
  else if value = 16 then .ok .Publish
  else if value = 64 then .ok .Register
  else if value = 66 then .ok .Unregister
  else if value = 68 then .ok .Invocation
  else if value = 48 then .ok .Call
  else .error "Invalid message error type"

/-! ### Options and details types

The module `src/src/messages/types/options.rs` that defines these types is
not part of the sources provided (only `mod options;` and their uses are),
so they are modelled from the spec. -/

/-- Modelled from the spec: `SubscribeOptions` (options.rs is absent from
src).  Spec §6 Options: SUBSCRIBE carries `match ∈ {"prefix", "wildcard",
<absent = strict>}`; the field is called `pattern_match` at its uses in
src/src/client.rs and src/src/router/mod.rs and defaults to Strict. -/
structure SubscribeOptions where
  pattern_match : MatchingPolicy
deriving DecidableEq, Repr

/-- Modelled from the spec: `RegisterOptions`, as `SubscribeOptions` but
for REGISTER (spec §6 Options). -/
structure RegisterOptions where
  pattern_match : MatchingPolicy
deriving DecidableEq, Repr

/-- Modelled from the spec: `PublishOptions` (options.rs is absent from
src).  Spec §6 Options: PUBLISH carries `acknowledge: bool`, default
false; the accessor is spelled `should_acknolwedge` at its use in
src/src/router/mod.rs line 270 (spec §9 records the ambiguous spelling). -/
structure PublishOptions where
  acknowledge : Bool
deriving DecidableEq, Repr

/-- `PublishOptions::should_acknolwedge`, the accessor `handle_publish`
consults (modelled from the spec, options.rs absent from src). -/
def PublishOptions.should_acknolwedge (o : PublishOptions) : Bool :=
  o.acknowledge

/-- Modelled from the spec: `EventDetails` (options.rs is absent from src).
Spec §6 Options: EVENT details may carry `topic` when the matched pattern
was non-strict; `handle_publish` writes the field `details.topic`. -/
structure EventDetails where
  topic : Option String
deriving DecidableEq, Repr

/-- `EventDetails::new()`: empty details, no topic. -/
def EventDetails.new : EventDetails := ⟨none⟩

/-- Modelled from the spec: `InvocationDetails`, carrying the optional
concrete `procedure` (spec §6 Options). -/
structure InvocationDetails where
  procedure : Option String
deriving DecidableEq, Repr

/-- Wire form of `SubscribeOptions`/`RegisterOptions`: an options map with
the `match` key omitted exactly when the policy is Strict (spec §6; the
`MatchingPolicy` serializer of src/src/messages/types/mod.rs supplies the
value). -/
def encodeMatchOptions (pattern_match : MatchingPolicy) : WireValue :=
  .map (if pattern_match = .Strict then []
        else [("match", .str pattern_match.serialize)])

/-- Association-list lookup standing in for `HashMap::get` on a wire map. -/
def lookupWire : List (String × WireValue) → String → Option WireValue
  | [], _ => none
  | (k, v) :: rest, key => if k = key then some v else lookupWire rest key

/-- Decoding of a `match` options map back to a policy: an absent key is
the serde default Strict, a present string goes through
`MatchingPolicy::visit_str`, anything else is a type mismatch. -/
def decodeMatchOptions : WireValue → Except String MatchingPolicy
  | .map kvs =>
      match lookupWire kvs "match" with
      | none => .ok .Strict
      | some (.str s) => MatchingPolicy.visit_str s
      | some _ => .error "type mismatch for match"
  | _ => .error "expected options map"

/-- Wire form of `PublishOptions`: `acknowledge` omitted when false
(the repository's tests frame `PublishOptions::new(false)` as an empty
map). -/
def PublishOptions.encode (o : PublishOptions) : WireValue :=
  .map (if o.acknowledge then [("acknowledge", .bool true)] else [])

/-- Decoding of a publish options map. -/
def PublishOptions.decode : WireValue → Except String PublishOptions
  | .map kvs =>
      match lookupWire kvs "acknowledge" with
      | none => .ok ⟨false⟩
      | some (.bool b) => .ok ⟨b⟩
      | some _ => .error "type mismatch for acknowledge"
  | _ => .error "expected options map"

/-- Wire form of `EventDetails`: `topic` omitted when absent. -/
def EventDetails.encode (d : EventDetails) : WireValue :=
  .map (match d.topic with
        | none => []
        | some t => [("topic", .str t)])

/-- Decoding of event details. -/
def EventDetails.decode : WireValue → Except String EventDetails
  | .map kvs =>
      match lookupWire kvs "topic" with
      | none => .ok ⟨none⟩
      | some (.str t) => .ok ⟨some t⟩
      | some _ => .error "type mismatch for topic"
  | _ => .error "expected details map"

/-- Wire form of `InvocationDetails`: `procedure` omitted when absent. -/
def InvocationDetails.encode (d : InvocationDetails) : WireValue :=
  .map (match d.procedure with
        | none => []
        | some p => [("procedure", .str p)])

/-- Decoding of invocation details. -/
def InvocationDetails.decode : WireValue → Except String InvocationDetails
  | .map kvs =>
      match lookupWire kvs "procedure" with
      | none => .ok ⟨none⟩
      | some (.str p) => .ok ⟨some p⟩
      | some _ => .error "type mismatch for procedure"
  | _ => .error "expected details map"

/-! ### The Message sum type and its codec, from src/src/messages/mod.rs -/

/-- `enum Message` (messages/mod.rs lines 16-37).  `URI` positions carry
the URI string; `HelloDetails`, `WelcomeDetails`, `ErrorDetails`,
`CallOptions`, `YieldOptions` and `ResultDetails` positions are modelled
from the spec as the generic details mapping (their defining modules
options.rs / roles.rs / error.rs are absent from src; spec §3 and the §6
wire table treat these positions as maps). -/
inductive Message where
  | Hello (realm : String) (details : Dict)
  | Welcome (session : ID) (details : Dict)
  | Abort (details : Dict) (reason : Reason)
  | Goodbye (details : Dict) (reason : Reason)
  | Error (ty : ErrorType) (id : ID) (details : Dict) (reason : Reason)
      (args : Option (List Value)) (kwargs : Option Dict)
  | Subscribe (request_id : ID) (options : SubscribeOptions) (topic : String)
  | Subscribed (request_id : ID) (subscription_id : ID)
  | Unsubscribe (request_id : ID) (subscription_id : ID)
  | Unsubscribed (request_id : ID)
  | Publish (id : ID) (options : PublishOptions) (topic : String)
      (args : Option (List Value)) (kwargs : Option Dict)
  | Published (request_id : ID) (publication_id : ID)
  | Event (subscription_id : ID) (publication_id : ID) (details : EventDetails)
      (args : Option (List Value)) (kwargs : Option Dict)
  | Register (request_id : ID) (options : RegisterOptions) (procedure : String)
  | Registered (request_id : ID) (registration_id : ID)
  | Unregister (request_id : ID) (registration_id : ID)
  | Unregistered (request_id : ID)
  | Call (id : ID) (options : Dict) (procedure : String)
      (args : Option (List Value)) (kwargs : Option Dict)
  | Invocation (id : ID) (registration_id : ID) (details : InvocationDetails)
      (args : Option (List Value)) (kwargs : Option Dict)
  | Yield (id : ID) (options : Dict)
      (args : Option (List Value)) (kwargs : Option Dict)
  | Result (id : ID) (details : Dict)
      (args : Option (List Value)) (kwargs : Option Dict)

/-- The `serialize_with_args!` macro (messages/mod.rs lines 39-56): with
kwargs present, args are always written (an empty sequence —
`Vec::<u8>::new()` — when the caller passed none); with kwargs absent,
args are written only if present. -/
def encodeTail (args : Option (List Value)) (kwargs : Option Dict) : List WireValue :=
  match kwargs with
  | some kw =>
      match args with
      | some a => [.arr (encodeValues a), .map (encodeEntries kw)]
      | none => [.arr [], .map (encodeEntries kw)]
  | none =>
      match args with
      | some a => [.arr (encodeValues a)]
      | none => []

/-- `impl serde::Serialize for Message` (messages/mod.rs lines 58-125):
each variant is an array opened by its integer tag. -/
def encodeMessage : Message → WireValue
  | .Hello realm details => .arr [.int 1, .str realm, .map (encodeEntries details)]
  | .Welcome session details => .arr [.int 2, .int session, .map (encodeEntries details)]
  | .Abort details reason => .arr [.int 3, .map (encodeEntries details), .str reason.serialize]
  | .Goodbye details reason => .arr [.int 6, .map (encodeEntries details), .str reason.serialize]
  | .Error ty id details reason args kwargs =>
      .arr ([.int 8, .int ty.serialize, .int id, .map (encodeEntries details),
        .str reason.serialize] ++ encodeTail args kwargs)
  | .Subscribe request_id options topic =>
      .arr [.int 32, .int request_id, encodeMatchOptions options.pattern_match, .str topic]
  | .Subscribed request_id subscription_id =>
      .arr [.int 33, .int request_id, .int subscription_id]
  | .Unsubscribe request_id subscription_id =>
      .arr [.int 34, .int request_id, .int subscription_id]
  | .Unsubscribed request_id => .arr [.int 35, .int request_id]
  | .Publish id options topic args kwargs =>
      .arr ([.int 16, .int id, options.encode, .str topic] ++ encodeTail args kwargs)
  | .Published request_id publication_id =>
      .arr [.int 17, .int request_id, .int publication_id]
  | .Event subscription_id publication_id details args kwargs =>
      .arr ([.int 36, .int subscription_id, .int publication_id, details.encode] ++
        encodeTail args kwargs)
  | .Register request_id options procedure =>
      .arr [.int 64, .int request_id, encodeMatchOptions options.pattern_match, .str procedure]
  | .Registered request_id registration_id =>
      .arr [.int 65, .int request_id, .int registration_id]
  | .Unregister request_id registration_id =>
      .arr [.int 66, .int request_id, .int registration_id]
  | .Unregistered request_id => .arr [.int 67, .int request_id]
  | .Call id options procedure args kwargs =>
      .arr ([.int 48, .int id, .map (encodeEntries options), .str procedure] ++
        encodeTail args kwargs)
  | .Invocation id registration_id details args kwargs =>
      .arr ([.int 68, .int id, .int registration_id, details.encode] ++
        encodeTail args kwargs)
  | .Yield id options args kwargs =>
      .arr ([.int 70, .int id, .map (encodeEntries options)] ++ encodeTail args kwargs)
  | .Result id details args kwargs =>
      .arr ([.int 50, .int id, .map (encodeEntries details)] ++ encodeTail args kwargs)

/-- Deserialization of an ID field: `u64` accepts a non-negative integer. -/
def decodeId : WireValue → Except String ID
  | .int n => if n < 0 then .error "expected unsigned integer" else .ok n.toNat
  | _ => .error "expected id"

/-- `URIVisitor::visit_str`: any string is accepted as a URI. -/
def decodeUri : WireValue → Except String String
  | .str s => .ok s
  | _ => .error "expected uri"

/-- Deserialization of a details/options mapping position. -/
def decodeDict : WireValue → Except String Dict
  | .map kvs => .ok (decodeEntries kvs)
  | _ => .error "expected map"

/-- Deserialization of an args sequence position. -/
def decodeList : WireValue → Except String (List Value)
  | .arr xs => .ok (decodeValues xs)
  | _ => .error "expected list"

/-- Deserialization of a reason position. -/
def decodeReason : WireValue → Except String Reason
  | .str s => Reason.visit_str s
  | _ => .error "expected reason uri"

/-- Deserialization of an error type position. -/
def decodeErrorType : WireValue → Except String ErrorType
  | .int n => ErrorType.visit_u64 n
  | _ => .error "expected error type"

/-- The `let args = try!(visitor.visit()); let kwargs = ...; visitor.end()`
tail of the data-carrying visitors: a missing element is `None`, a present
element must have the right type, and extra elements are an error. -/
def parseTail : List WireValue → Except String (Option (List Value) × Option Dict)
  | [] => .ok (none, none)
  | [a] => do
      let args ← decodeList a
      .ok (some args, none)
  | [a, k] => do
      let args ← decodeList a
      let kwargs ← decodeDict k
      .ok (some args, some kwargs)
  | _ => .error "message has too many fields"

/-- `MessageVisitor::visit_seq` with the per-variant `visit_*` helpers
(messages/mod.rs lines 138-330): dispatch on the opening tag, read each
positional field with its type, then the optional args/kwargs tail. -/
def decodeMessage : WireValue → Except String Message
  | .arr (.int t :: rest) =>
      if t = 1 then
        match rest with
        | [u, d] => do
            let uri ← decodeUri u
            let details ← decodeDict d
            .ok (.Hello uri details)
        | _ => .error "Hello message ended before details dict"
      else if t = 2 then
        match rest with
        | [s, d] => do
            let session ← decodeId s
            let details ← decodeDict d
            .ok (.Welcome session details)
        | _ => .error "Welcome message ended before details dict"
      else if t = 3 then
        match rest with
        | [d, r] => do
            let details ← decodeDict d
            let reason ← decodeReason r
            .ok (.Abort details reason)
        | _ => .error "Abort message ended before reason uri"
      else if t = 6 then
        match rest with
        | [d, r] => do
            let details ← decodeDict d
            let reason ← decodeReason r
            .ok (.Goodbye details reason)
        | _ => .error "Goodbye message ended before reason uri"
      else if t = 8 then
        match rest with
        | ty :: i :: d :: r :: tail => do
            let message_type ← decodeErrorType ty
            let id ← decodeId i
            let details ← decodeDict d
            let reason ← decodeReason r
            let (args, kwargs) ← parseTail tail
            .ok (.Error message_type id details reason args kwargs)
        | _ => .error "Error message ended before reason uri"
      else if t = 32 then
        match rest with
        | [i, o, u] => do
            let request ← decodeId i
            let options ← decodeMatchOptions o
            let topic ← decodeUri u
            .ok (.Subscribe request ⟨options⟩ topic)
        | _ => .error "Subscribe message ended before topic uri"
      else if t = 33 then
        match rest with
        | [i, s] => do
            let request ← decodeId i
            let subscription ← decodeId s
            .ok (.Subscribed request subscription)
        | _ => .error "Subscribed message ended before subscription id"
      else if t = 34 then
        match rest with
        | [i, s] => do
            let request ← decodeId i
            let subscription ← decodeId s
            .ok (.Unsubscribe request subscription)
        | _ => .error "Unsubscribe message ended before subscription id"
      else if t = 35 then
        match rest with
        | [i] => do
            let request ← decodeId i
            .ok (.Unsubscribed request)
        | _ => .error "Unsubscribed message ended before request id"
      else if t = 16 then
        match rest with
        | i :: o :: u :: tail => do
            let id ← decodeId i
            let options ← PublishOptions.decode o
            let topic ← decodeUri u
            let (args, kwargs) ← parseTail tail
            .ok (.Publish id options topic args kwargs)
        | _ => .error "Publish message ended before topic uri"
      else if t = 17 then
        match rest with
        | [i, p] => do
            let request ← decodeId i
            let publication ← decodeId p
            .ok (.Published request publication)
        | _ => .error "Published message ended before publication id"
      else if t = 36 then
        match rest with
        | s :: p :: d :: tail => do
            let subscription_id ← decodeId s
            let publication_id ← decodeId p
            let details ← EventDetails.decode d
            let (args, kwargs) ← parseTail tail
            .ok (.Event subscription_id publication_id details args kwargs)
        | _ => .error "Event message ended before details dict"
      else if t = 64 then
        match rest with
        | [i, o, u] => do
            let request ← decodeId i
            let options ← decodeMatchOptions o
            let procedure ← decodeUri u
            .ok (.Register request ⟨options⟩ procedure)
        | _ => .error "Register message ended before procedure"
      else if t = 65 then
        match rest with
        | [i, r] => do
            let request ← decodeId i
            let registration_id ← decodeId r
            .ok (.Registered request registration_id)
        | _ => .error "Registered message ended before registration id"
      else if t = 66 then
        match rest with
        | [i, r] => do
            let request ← decodeId i
            let registration_id ← decodeId r
            .ok (.Unregister request registration_id)
        | _ => .error "Unregister message ended before registration id"
      else if t = 67 then
        match rest with
        | [i] => do
            let request ← decodeId i
            .ok (.Unregistered request)
        | _ => .error "Unregistered message ended before request id"
      else if t = 48 then
        match rest with
        | i :: o :: u :: tail => do
            let id ← decodeId i
            let options ← decodeDict o
            let topic ← decodeUri u
            let (args, kwargs) ← parseTail tail
            .ok (.Call id options topic args kwargs)
        | _ => .error "Call message ended before procedure uri"
      else if t = 68 then
        match rest with
        | i :: r :: d :: tail => do
            let id ← decodeId i
            let registration_id ← decodeId r
            let details ← InvocationDetails.decode d
            let (args, kwargs) ← parseTail tail
            .ok (.Invocation id registration_id details args kwargs)
        | _ => .error "Invocation message ended before details dict"
      else if t = 70 then
        match rest with
        | i :: o :: tail => do
            let id ← decodeId i
            let options ← decodeDict o
            let (args, kwargs) ← parseTail tail
            .ok (.Yield id options args kwargs)
        | _ => .error "Yield message ended before options dict"
      else if t = 50 then
        match rest with
        | i :: d :: tail => do
            let id ← decodeId i
            let details ← decodeDict d
            let (args, kwargs) ← parseTail tail
            .ok (.Result id details args kwargs)
        | _ => .error "Result message ended before details dict"
      else
        .error "Unknown message type"
  | _ => .error "No message type found"

/-- What an args/kwargs pair becomes after one encode/decode round trip:
with kwargs present, an absent args list resurfaces as the empty list. -/
def normTail (args : Option (List Value)) (kwargs : Option Dict) :
    Option (List Value) × Option Dict :=
  match kwargs with
  | some kw => (some (args.getD []), some kw)
  | none => (args, none)

/-- `Message.normalize`: the identity on every field except that an absent
args list next to present kwargs becomes the explicit empty list (the
image of a message under one codec round trip). -/
def Message.normalize : Message → Message
  | .Error ty id details reason args kwargs =>
      .Error ty id details reason (normTail args kwargs).1 (normTail args kwargs).2
  | .Publish id options topic args kwargs =>
      .Publish id options topic (normTail args kwargs).1 (normTail args kwargs).2
  | .Event s p details args kwargs =>
      .Event s p details (normTail args kwargs).1 (normTail args kwargs).2
  | .Call id options procedure args kwargs =>
      .Call id options procedure (normTail args kwargs).1 (normTail args kwargs).2
  | .Invocation id r details args kwargs =>
      .Invocation id r details (normTail args kwargs).1 (normTail args kwargs).2
  | .Yield id options args kwargs =>
      .Yield id options (normTail args kwargs).1 (normTail args kwargs).2
  | .Result id details args kwargs =>
      .Result id details (normTail args kwargs).1 (normTail args kwargs).2
  | m => m

/-- A message is already in round-trip normal form unless its args are
absent while its kwargs are present. -/
def Message.tailNormal : Message → Prop
  | .Error _ _ _ _ args kwargs => ¬(args = none ∧ kwargs ≠ none)
  | .Publish _ _ _ args kwargs => ¬(args = none ∧ kwargs ≠ none)
  | .Event _ _ _ args kwargs => ¬(args = none ∧ kwargs ≠ none)
  | .Call _ _ _ args kwargs => ¬(args = none ∧ kwargs ≠ none)
  | .Invocation _ _ _ args kwargs => ¬(args = none ∧ kwargs ≠ none)
  | .Yield _ _ args kwargs => ¬(args = none ∧ kwargs ≠ none)
  | .Result _ _ args kwargs => ¬(args = none ∧ kwargs ≠ none)
  | _ => True

/-- Whether a message is an EVENT (used to state publish dispatch facts). -/
def Message.isEvent : Message → Bool
  | .Event _ _ _ _ _ => true
  | _ => false

/-! ### Router connection handling, from src/src/router/mod.rs and
src/src/router/handshake.rs -/

/-- `enum ConnectionState` (router/mod.rs lines 55-61). -/
inductive ConnectionState where
  | Initializing
  | Connected
  | ShuttingDown
  | Disconnected
deriving DecidableEq, Repr

/-- The outcome of running code that may hit a Rust panic: either a value,
or the panic that unwinds the handler without producing any output. -/
inductive PanicOr (α : Type) where
  | ok (a : α)
  | panicked

/-- `ConnectionHandler::set_realm` (handshake.rs lines 57-65, duplicated at
router/mod.rs lines 315-323).  The body indexes the realm map:
`self.router.realms.lock().unwrap()[&realm]` — `Index` on a `HashMap`
panics when the key is absent, and there is no branch testing membership,
so an unknown realm name panics instead of reaching any error path.  The
realm map is modelled by its key set. -/
def ConnectionHandler.set_realm (realms : List String) (realm : String) : PanicOr Unit :=
  if realm ∈ realms then .ok () else .panicked

/-- `ConnectionHandler::handle_hello` (handshake.rs lines 10-20): the
session state is set to Connected, then `set_realm` runs (propagating its
panic), then a WELCOME carrying the session ID is sent.  The
`WelcomeDetails::new(RouterRoles::new())` payload is modelled from the
spec as a details mapping (roles.rs is absent from src); its contents do
not matter to any claim. -/
def ConnectionHandler.handle_hello (realms : List String) (realm : String) (id : ID) :
    PanicOr (ConnectionState × List Message) :=
  match ConnectionHandler.set_realm realms realm with
  | .panicked => .panicked
  | .ok () => .ok (.Connected, [.Welcome id []])

/-- `ConnectionHandler::handle_publish` (router/mod.rs lines 245-279) for a
session attached to a realm whose subscription trie is `subscriptions`.
One `random_id()` is drawn as the publication ID.  The loop walks
`filter(topic)` and, for every yield whose session ID differs from the
publisher's, rewrites the reused event message: its subscription field
becomes the yielded ID, its `details.topic` becomes the concrete topic
unless the yielded policy is Strict, and sends it to that subscriber; the
args/kwargs are the published payload.  If the publisher set the
acknowledge option, a PUBLISHED with the same publication ID goes back to
the publisher.  Returns the sends as (destination session ID, message)
pairs, the publication ID, and the advanced freshness supply. -/
def ConnectionHandler.handle_publish (subscriptions : PatternNode) (my_id : Nat)
    (request_id : ID) (options : PublishOptions) (topic : List String)
    (topicStr : String) (args : Option (List Value)) (kwargs : Option Dict)
    (gen : Nat) : List (Nat × Message) × ID × Nat :=
  let publication_id := gen
  let events := (subscriptions.filter topic).filterMap fun y =>
    if y.1 ≠ my_id then
      some (y.1, Message.Event y.2.1 publication_id
        ⟨if y.2.2 = MatchingPolicy.Strict then none else some topicStr⟩ args kwargs)
    else
      none
  let sends := if options.should_acknolwedge then
      events ++ [(my_id, Message.Published request_id publication_id)]
    else
      events
  (sends, publication_id, gen + 1)

/-! ### The client receive-task dispatcher, from src/src/client.rs -/

/-- The client-side connection state (client.rs lines 60-65). -/
inductive ClientState where
  | Connected
  | ShuttingDown
  | Disconnected
deriving DecidableEq, Repr

/-- `struct ConnectionInfo` (client.rs lines 85-98), the parts
`Connection::handle_message` reads or writes.  Each pending-request map
and the subscription/registration callback maps are modelled as
association lists from request/subscription ID to an opaque token standing
for the stored completion (`Complete`) or callback. -/
structure ClientConnectionInfo where
  connection_state : ClientState
  subscription_requests : List (ID × Nat)
  unsubscription_requests : List (ID × Nat)
  subscriptions : List (ID × Nat)
  registrations : List (ID × Nat)
  call_requests : List (ID × Nat)
  registration_requests : List (ID × Nat)
  unregistration_requests : List (ID × Nat)
  published_callbacks : List (ID × Nat)
  shutdown_complete : Option Nat

/-- `HashMap::remove` on a pending map: the removed token (if the key was
live) and the map without it. -/
def removeKey : List (ID × Nat) → ID → Option Nat × List (ID × Nat)
  | [], _ => (none, [])
  | (k, v) :: rest, key =>
      if k = key then (some v, rest)
      else
        match removeKey rest key with
        | (r, rest') => (r, (k, v) :: rest')

/-- `HashMap::get` on a pending map. -/
def getKey : List (ID × Nat) → ID → Option Nat
  | [], _ => none
  | (k, v) :: rest, key => if k = key then some v else getKey rest key

/-- The externally visible actions of one `Connection::handle_message`
call: completing a stored completion with a payload, invoking a stored
subscription callback, or answering the router's GOODBYE. -/
inductive ClientEffect where
  | completedSubscription (token : Nat) (subscription_id : ID)
  | completedUnsubscription (token : Nat)
  | invokedCallback (token : Nat) (args : List Value) (kwargs : Dict)
  | completedPublish (token : Nat) (publication_id : ID)
  | completedRegistration (token : Nat) (registration_id : ID)
  | completedUnregistration (token : Nat)
  | sentGoodbyeAndOut
  | completedShutdown (token : Nat)

/-- `Connection::handle_message` (client.rs lines 339-439), the receive
task's dispatcher.  Returns the updated connection info, the effects, and
the `bool` telling the receive loop whether to keep running.  SUBSCRIBED /
UNSUBSCRIBED / PUBLISHED / REGISTERED / UNREGISTERED remove the matching
pending entry and complete it (an unmatched ID only logs); EVENT invokes
the callback stored for the subscription with the payload, defaulting
absent args/kwargs to empty; GOODBYE answers or completes shutdown by
state; **every other variant — ERROR included — falls through the
`_ => {}` arm** and leaves the maps and completions untouched. -/
def Connection.handle_message (message : Message) (info : ClientConnectionInfo) :
    ClientConnectionInfo × List ClientEffect × Bool :=
  match message with
  | .Subscribed request_id subscription_id =>
      match removeKey info.subscription_requests request_id with
      | (some promise, rest) =>
          ({ info with subscription_requests := rest },
           [.completedSubscription promise subscription_id], true)
      | (none, _) => (info, [], true)
  | .Unsubscribed request_id =>
      match removeKey info.unsubscription_requests request_id with
      | (some promise, rest) =>
          ({ info with unsubscription_requests := rest },
           [.completedUnsubscription promise], true)
      | (none, _) => (info, [], true)
  | .Event subscription_id _ _ args kwargs =>
      match getKey info.subscriptions subscription_id with
      | some callback =>
          (info, [.invokedCallback callback (args.getD []) (kwargs.getD [])], true)
      | none => (info, [], true)
  | .Published request_id publication_id =>
      match removeKey info.published_callbacks request_id with
      | (some promise, rest) =>
          ({ info with published_callbacks := rest },
           [.completedPublish promise publication_id], true)
      | (none, _) => (info, [], true)
  | .Registered request_id registration_id =>
      match removeKey info.registration_requests request_id with
      | (some promise, rest) =>
          ({ info with registration_requests := rest },
           [.completedRegistration promise registration_id], true)
      | (none, _) => (info, [], true)
  | .Unregistered request_id =>
      match removeKey info.unregistration_requests request_id with
      | (some promise, rest) =>
          ({ info with unregistration_requests := rest },
           [.completedUnregistration promise], true)
      | (none, _) => (info, [], true)
  | .Goodbye _ _ =>
      match info.connection_state with
      | .Connected => (info, [.sentGoodbyeAndOut], false)
      | .ShuttingDown =>
          match info.shutdown_complete with
          | some promise =>
              ({ info with shutdown_complete := none }, [.completedShutdown promise], false)
          | none => ({ info with shutdown_complete := none }, [], false)
      | .Disconnected => (info, [], false)
  | _ => (info, [], true)

/-! ## C10: MatchingPolicy serialization round-trip -/

/-- C10: serializing `Prefix` and `Wildcard` round-trips through the
`MatchingPolicy` serializer and deserializer, while `Strict` serializes to
the empty string, which `visit_str` rejects (only "prefix" and "wildcard"
are accepted); hence decode(encode(Strict)) is an error, and an options map
can only express the strict policy by omitting the `match` key. -/
theorem C10_matching_policy_serde :
    MatchingPolicy.visit_str (MatchingPolicy.serialize .Prefix) = .ok .Prefix ∧
    MatchingPolicy.visit_str (MatchingPolicy.serialize .Wildcard) = .ok .Wildcard ∧
    MatchingPolicy.serialize .Strict = "" ∧
    MatchingPolicy.visit_str (MatchingPolicy.serialize .Strict) =
      .error "Invalid matching policy: " ∧
    ∀ s : String, MatchingPolicy.visit_str s = .ok .Prefix ∨
      MatchingPolicy.visit_str s = .ok .Wildcard ∨
      MatchingPolicy.visit_str s = .error ("Invalid matching policy: " ++ s) := by
  refine ⟨rfl, rfl, rfl, rfl, ?_⟩
  intro s
  unfold MatchingPolicy.visit_str
  split
  · exact Or.inl rfl
  · exact Or.inr (Or.inl rfl)
  · exact Or.inr (Or.inr rfl)

/-! ## C9: the range of random_id -/

/-- C9 counterexample: the claim asserts that every integer in `[0, 2^56)`,
including `2^56 - 1`, is a possible output of `random_id`.  In the code the
sampling interval handed to the rand crate is the half-open
`[0, 1u64.rotate_left(56) - 1)` = `[0, 2^56 - 1)`, so `2^56 - 1` is not in
the support even though it lies in `[0, 2^56)`. -/
theorem C9_counterexample :
    2 ^ 56 - 1 < 2 ^ 56 ∧ ¬ random_id_support (2 ^ 56 - 1) := by
  constructor
  · exact Nat.sub_lt (by positivity) one_pos
  · show ¬ (2 ^ 56 - 1 < random_id_high)
    have h : random_id_high = 2 ^ 56 - 1 := by decide
    rw [h]
    exact Nat.lt_irrefl _

/-- C9 amended: every identifier produced by `random_id` lies in
`[0, 2^56)`, and the set of possible outputs is exactly the half-open range
`[0, 2^56 - 1)` — every integer strictly below `2^56 - 1` is a possible
output, and `2^56 - 1` itself is not. -/
theorem C9_random_id_range :
    (∀ n, random_id_support n → n < 2 ^ 56) ∧
    (∀ n, n < 2 ^ 56 - 1 → random_id_support n) ∧
    ¬ random_id_support (2 ^ 56 - 1) := by
  have h : random_id_high = 2 ^ 56 - 1 := by decide
  refine ⟨?_, ?_, ?_⟩
  · intro n hn
    have : n < 2 ^ 56 - 1 := h ▸ hn
    omega
  · intro n hn
    show n < random_id_high
    omega
  · show ¬ (2 ^ 56 - 1 < random_id_high)
    rw [h]
    exact Nat.lt_irrefl _

/-- Witness for C9_random_id_range: instantiating at the concrete outputs 0
and discharging each hypothesis. -/
theorem C9_random_id_range_witness :
    random_id_support 0 ∧ (0 : Nat) < 2 ^ 56 := by
  refine ⟨C9_random_id_range.2.1 0 (by norm_num), ?_⟩
  exact C9_random_id_range.1 0 (C9_random_id_range.2.1 0 (by norm_num))

/-! ## C6: sub-protocol negotiation -/

/-- C6 counterexample: with the offer list `["wamp.2.json",
"wamp.2.msgpack"]` the claim requires `wamp.2.msgpack` to be selected
(msgpack appears in the list), but `process_protocol` accepts the first
recognised protocol in offer order and selects `wamp.2.json`. -/
theorem C6_counterexample :
    process_protocol [WAMP_JSON, WAMP_MSGPACK] = .ok WAMP_JSON ∧
    WAMP_JSON ≠ WAMP_MSGPACK := by
  constructor
  · rfl
  · intro h
    simp [WAMP_JSON, WAMP_MSGPACK] at h

/-- C6 amended: negotiation selects the first protocol in the offered list
that is either `wamp.2.json` or `wamp.2.msgpack` (so msgpack is selected
whenever it appears and json does not appear before it), selects
`wamp.2.json` when only it is offered, and rejects the upgrade with an
error when neither is offered. -/
theorem C6_process_protocol (ps : List String) :
    (process_protocol ps =
      match ps.find? (fun p => p = WAMP_JSON ∨ p = WAMP_MSGPACK) with
      | some p => .ok p
      | none => .error ("Neither " ++ WAMP_JSON ++ " nor " ++ WAMP_MSGPACK ++
          " were selected as Websocket sub-protocols")) ∧
    (WAMP_MSGPACK ∈ ps → WAMP_JSON ∉ ps → process_protocol ps = .ok WAMP_MSGPACK) ∧
    (WAMP_JSON ∈ ps → WAMP_MSGPACK ∉ ps → process_protocol ps = .ok WAMP_JSON) ∧
    (WAMP_JSON ∉ ps → WAMP_MSGPACK ∉ ps →
      process_protocol ps = .error ("Neither " ++ WAMP_JSON ++ " nor " ++
        WAMP_MSGPACK ++ " were selected as Websocket sub-protocols")) := by
  refine ⟨?_, ?_, ?_, ?_⟩
  · induction ps with
    | nil => rfl
    | cons p rest ih =>
        by_cases h : p = WAMP_JSON ∨ p = WAMP_MSGPACK
        · simp [process_protocol, h, List.find?_cons_of_pos, decide_eq_true_eq]
        · rw [List.find?_cons_of_neg]
          · simpa [process_protocol, h] using ih
          · simpa using h
  · intro hm hj
    induction ps with
    | nil => cases hm
    | cons p rest ih =>
        by_cases hpm : p = WAMP_MSGPACK
        · simp [process_protocol, hpm]
        · have hpj : p ≠ WAMP_JSON := fun e => hj (e ▸ List.mem_cons_self p rest)
          have hrest : WAMP_MSGPACK ∈ rest := by
            rcases List.mem_cons.mp hm with h | h
            · exact absurd h.symm hpm
            · exact h
          have := ih hrest (fun e => hj (List.mem_cons_of_mem p e))
          simpa [process_protocol, hpj, hpm] using this
  · intro hj hm
    induction ps with
    | nil => cases hj
    | cons p rest ih =>
        by_cases hpj : p = WAMP_JSON
        · simp [process_protocol, hpj]
        · have hpm : p ≠ WAMP_MSGPACK := fun e => hm (e ▸ List.mem_cons_self p rest)
          have hrest : WAMP_JSON ∈ rest := by
            rcases List.mem_cons.mp hj with h | h
            · exact absurd h.symm hpj
            · exact h
          have := ih hrest (fun e => hm (List.mem_cons_of_mem p e))
          simpa [process_protocol, hpj, hpm] using this
  · intro hj hm
    induction ps with
    | nil => rfl
    | cons p rest ih =>
        have hpj : p ≠ WAMP_JSON := fun e => hj (e ▸ List.mem_cons_self p rest)
        have hpm : p ≠ WAMP_MSGPACK := fun e => hm (e ▸ List.mem_cons_self p rest)
        have := ih (fun e => hj (List.mem_cons_of_mem p e))
          (fun e => hm (List.mem_cons_of_mem p e))
        simpa [process_protocol, hpj, hpm] using this

/-- Witness for C6_process_protocol: concrete offer lists discharging each
hypothesis. -/
theorem C6_process_protocol_witness :
    process_protocol ["x", WAMP_MSGPACK] = .ok WAMP_MSGPACK ∧
    process_protocol [WAMP_JSON] = .ok WAMP_JSON ∧
    process_protocol ["x"] = .error ("Neither " ++ WAMP_JSON ++ " nor " ++
      WAMP_MSGPACK ++ " were selected as Websocket sub-protocols") := by
  refine ⟨?_, ?_, ?_⟩
  · exact (C6_process_protocol ["x", WAMP_MSGPACK]).2.1 (by simp) (by
      simp [WAMP_JSON, WAMP_MSGPACK])
  · exact (C6_process_protocol [WAMP_JSON]).2.2.1 (by simp) (by
      simp [WAMP_JSON, WAMP_MSGPACK])
  · exact (C6_process_protocol ["x"]).2.2.2 (by simp [WAMP_JSON]) (by
      simp [WAMP_MSGPACK])

end WampRs

namespace WampRs

/-! ## C3: HELLO with an unknown realm -/

/-- C3: the claim says a HELLO naming a realm absent from the router's
realm map is rejected with `no_such_realm` (ABORT, close) and that handling
always returns.  In the code, `set_realm` indexes the realm map with no
membership test, so `handle_hello` panics on an unknown realm and emits
nothing — this theorem evaluates the code on that path. -/
theorem C3_unknown_realm_panics (realms : List String) (realm : String) (id : ID)
    (h : realm ∉ realms) :
    ConnectionHandler.handle_hello realms realm id = .panicked := by
  unfold ConnectionHandler.handle_hello ConnectionHandler.set_realm
  simp [h]

/-- Witness for C3_unknown_realm_panics: an empty realm map and the realm
"realm1". -/
theorem C3_unknown_realm_panics_witness :
    "realm1" ∉ ([] : List String) ∧
    ConnectionHandler.handle_hello [] "realm1" 42 = .panicked :=
  ⟨by simp, C3_unknown_realm_panics [] "realm1" 42 (by simp)⟩

/-! ## C7: client handling of ERROR messages -/

/-- C7: the claim says an ERROR whose request ID matches a live
pending-request entry removes that entry and rejects the stored completion
with the carried reason and payload.  In the code,
`Connection::handle_message` has no arm for `Message::Error` at all — it
falls through the `_ => {}` catch-all — so for every ERROR message and
every state of the pending maps, the state is returned untouched, no entry
is removed, and no completion is resolved or rejected. -/
theorem C7_error_message_dropped (ty : ErrorType) (request_id : ID) (details : Dict)
    (reason : Reason) (args : Option (List Value)) (kwargs : Option Dict)
    (info : ClientConnectionInfo) :
    Connection.handle_message (.Error ty request_id details reason args kwargs) info =
      (info, [], true) :=
  rfl

/-! ## C8: rejection of empty fragments in subscribe_with -/

/-- C8: the claim says `subscribe_with` returns an invalid-URI error for
every pattern containing an empty fragment — including an empty first
fragment and the wholly empty URI — under a non-Wildcard policy.  The
check in `add_subscription` only sees the fragments after the first:
`subscribe_with` feeds the first fragment straight to `entry().or_insert`
(its only error branch needs `split` to yield nothing, which never
happens).  So the wholly empty URI (fragments `[""]`) is accepted under
Strict and its entry lands in an exact-match bag, while the same empty
fragment in second position is rejected, and Wildcard accepts it, as
claimed. -/
theorem C8_empty_first_fragment_accepted :
    (∃ t, PatternNode.subscribe_with (.mk [] [] [] 0 1) [""] 7 .Strict 2 = .ok (2, t, 4) ∧
      t.storedEntries = [([""], false, ⟨7, .Strict⟩)]) ∧
    PatternNode.subscribe_with (.mk [] [] [] 0 1) ["a", ""] 7 .Strict 2 = .error () ∧
    (∃ t, PatternNode.subscribe_with (.mk [] [] [] 0 1) [""] 7 .Wildcard 2 = .ok (2, t, 4)) := by
  refine ⟨⟨_, rfl, rfl⟩, rfl, ⟨_, rfl⟩⟩

/-! ## C1: the ID paired with exact-match yields -/

/-- C1: the claim says the ID announced by `subscribe_with` for a Strict
subscription (the exact-match bag's `id`) is the same ID that `filter`
later pairs with that subscription.  Evaluating the code: subscribing
`com.x.t` under Strict returns the exact bag's stable ID (here 6), but
`MatchIterator::next` pairs exact-bag yields with the node's `prefix_id`
(here 7) — an independently drawn identifier — so the EVENT would carry a
different subscription ID than the SUBSCRIBED reply announced. -/
theorem C1_filter_pairs_prefix_id :
    ∃ t, PatternNode.subscribe_with (.mk [] [] [] 0 1) ["com", "x", "t"] 1 .Strict 2 =
        .ok (6, t, 8) ∧
      t.filter ["com", "x", "t"] = [(1, 7, .Strict)] ∧
      (6 : Nat) ≠ 7 := by
  exact ⟨_, rfl, rfl, by decide⟩

end WampRs

namespace WampRs

/-! ## C5: publish dispatch -/

/-- Helper: a `filterMap` whose function is an if-then-some-else-none is a
filter followed by a map. -/
theorem filterMap_ite {α β : Type} (l : List α) (p : α → Prop) [DecidablePred p]
    (g : α → β) :
    l.filterMap (fun a => if p a then some (g a) else none) =
      (l.filter (fun a => decide (p a))).map g := by
  induction l with
  | nil => rfl
  | cons a rest ih =>
      by_cases h : p a <;> simp [List.filterMap_cons, List.filter_cons, h, ih]

/-- C5: when a Connected session handles PUBLISH of a topic, then — writing
`r` for the result of `handle_publish` — (1) the EVENT sends are exactly
one per yield of `filter(topic)` whose session ID differs from the
publisher's, in yield order, each carrying that yield's subscription ID,
the one freshly drawn publication ID `r.2.1` shared by all of them, and
details that carry the concrete topic iff the yield's policy is not
Strict; (2) no EVENT of this publication is sent to the publisher; and
(3) a PUBLISHED carrying the same publication ID goes to the publisher iff
the acknowledge option was set. -/
theorem C5_publish_dispatch (subscriptions : PatternNode) (my_id : Nat) (request_id : ID)
    (options : PublishOptions) (topic : List String) (topicStr : String)
    (args : Option (List Value)) (kwargs : Option Dict) (gen : Nat) :
    (ConnectionHandler.handle_publish subscriptions my_id request_id options topic
        topicStr args kwargs gen).1.filter (fun s => s.2.isEvent) =
      ((subscriptions.filter topic).filter (fun y => y.1 ≠ my_id)).map
        (fun y => (y.1, Message.Event y.2.1
          (ConnectionHandler.handle_publish subscriptions my_id request_id options topic
            topicStr args kwargs gen).2.1
          ⟨if y.2.2 = MatchingPolicy.Strict then none else some topicStr⟩ args kwargs)) ∧
    (∀ s ∈ (ConnectionHandler.handle_publish subscriptions my_id request_id options topic
        topicStr args kwargs gen).1, s.2.isEvent = true → s.1 ≠ my_id) ∧
    ((my_id, Message.Published request_id
        (ConnectionHandler.handle_publish subscriptions my_id request_id options topic
          topicStr args kwargs gen).2.1) ∈
      (ConnectionHandler.handle_publish subscriptions my_id request_id options topic
        topicStr args kwargs gen).1 ↔
      options.should_acknolwedge = true) := by
  unfold ConnectionHandler.handle_publish
  simp only []
  rw [filterMap_ite (subscriptions.filter topic) (fun y => y.1 ≠ my_id)
    (fun y => (y.1, Message.Event y.2.1 gen
      ⟨if y.2.2 = MatchingPolicy.Strict then none else some topicStr⟩ args kwargs))]
  constructor
  · by_cases h : options.should_acknolwedge <;>
      simp [h, List.filter_append, List.filter_map, Function.comp_def, Message.isEvent,
        List.filter_eq_self.mpr]
  · constructor
    · intro s hs hev
      by_cases h : options.should_acknolwedge <;> simp [h] at hs
      · rcases hs with hs | hs
        · obtain ⟨a, b, c, ⟨_, hne⟩, rfl⟩ := hs
          simpa using hne
        · rw [hs] at hev
          simp [Message.isEvent] at hev
      · obtain ⟨a, b, c, ⟨_, hne⟩, rfl⟩ := hs
        simpa using hne
    · by_cases h : options.should_acknolwedge <;> simp [h]

/-- Witness for C5_publish_dispatch: one strict subscriber (ID 5) on the
one-fragment topic `a`, publisher ID 9, acknowledge set.  The publication
ID is the fresh draw 20; the one EVENT goes to subscriber 5, and the
PUBLISHED goes back to the publisher. -/
theorem C5_publish_dispatch_witness :
    (ConnectionHandler.handle_publish
        (.mk [("a", .mk [] [⟨5, .Strict⟩] [] 2 3)] [] [] 0 1) 9 77 ⟨true⟩
        ["a"] "a" none none 20).1 =
      [(5, Message.Event 3 20 ⟨none⟩ none none), (9, Message.Published 77 20)] ∧
    (5 : Nat) ≠ 9 := by
  have h := (C5_publish_dispatch
    (.mk [("a", .mk [] [⟨5, .Strict⟩] [] 2 3)] [] [] 0 1) 9 77 ⟨true⟩
    ["a"] "a" none none 20).2.1
  refine ⟨rfl, ?_⟩
  exact h (5, Message.Event 3 20 ⟨none⟩ none none) (by exact .head _) rfl

end WampRs

namespace WampRs

/-! ## C2: codec round-trip -/

mutual

/-- Round trip of a single value through the codec. -/
theorem decode_encodeValue : ∀ v : Value, decodeValue (encodeValue v) = v
  | .dict d => by simp [encodeValue, decodeValue, decodeEntries_encodeEntries d]
  | .integer i => rfl
  | .str s => rfl
  | .list l => by simp [encodeValue, decodeValue, decodeValues_encodeValues l]
  | .boolean b => rfl

/-- Round trip of a value sequence. -/
theorem decodeValues_encodeValues : ∀ l : List Value, decodeValues (encodeValues l) = l
  | [] => rfl
  | v :: vs => by
      simp [encodeValues, decodeValues, decode_encodeValue v, decodeValues_encodeValues vs]

/-- Round trip of a string-keyed mapping. -/
theorem decodeEntries_encodeEntries :
    ∀ d : List (String × Value), decodeEntries (encodeEntries d) = d
  | [] => rfl
  | (k, v) :: rest => by
      simp [encodeEntries, decodeEntries, decode_encodeValue v,
        decodeEntries_encodeEntries rest]

end

/-- Round trip of an ID position. -/
theorem decodeId_int (i : ID) : decodeId (.int i) = .ok i := by
  simp [decodeId, Int.toNat_natCast]

/-- Round trip of a details/options mapping position. -/
theorem decodeDict_encode (d : Dict) : decodeDict (.map (encodeEntries d)) = .ok d := by
  simp [decodeDict, decodeEntries_encodeEntries]

/-- Round trip of a reason position. -/
theorem decodeReason_encode (r : Reason) :
    decodeReason (.str r.serialize) = .ok r := by
  cases r <;> rfl

/-- Round trip of an error-type position. -/
theorem decodeErrorType_encode (t : ErrorType) :
    decodeErrorType (.int t.serialize) = .ok t := by
  cases t <;> rfl

/-- Round trip of a `match` options map. -/
theorem decodeMatchOptions_encode (p : MatchingPolicy) :
    decodeMatchOptions (encodeMatchOptions p) = .ok p := by
  cases p <;> rfl

/-- Round trip of publish options. -/
theorem decodePublishOptions_encode (o : PublishOptions) :
    PublishOptions.decode o.encode = .ok o := by
  obtain ⟨b⟩ := o
  cases b <;> rfl

/-- Round trip of event details. -/
theorem decodeEventDetails_encode (d : EventDetails) :
    EventDetails.decode d.encode = .ok d := by
  obtain ⟨t⟩ := d
  cases t <;> rfl

/-- Round trip of invocation details. -/
theorem decodeInvocationDetails_encode (d : InvocationDetails) :
    InvocationDetails.decode d.encode = .ok d := by
  obtain ⟨p⟩ := d
  cases p <;> rfl

/-- Round trip of the optional args/kwargs tail: the encoding of
`(args, kwargs)` decodes to `normTail args kwargs` — the identity except
that absent args next to present kwargs come back as the empty list. -/
theorem parseTail_encodeTail (args : Option (List Value)) (kwargs : Option Dict) :
    parseTail (encodeTail args kwargs) = .ok (normTail args kwargs) := by
  cases kwargs <;> cases args <;>
    simp [encodeTail, parseTail, normTail, decodeList, decodeDict,
      decodeValues_encodeValues, decodeEntries_encodeEntries, Option.getD,
      bind, Except.bind, pure, Except.pure, decodeValues]

end WampRs

namespace WampRs

/-- C2 counterexample: the claim requires `decode(encode(m)) = m` for every
in-scope message, including args = None with kwargs = Some.  For the YIELD
message with no args and empty kwargs, `serialize_with_args!` writes an
empty args sequence, and decoding returns args = Some([]) — a different
`Message` value. -/
theorem C2_counterexample :
    decodeMessage (encodeMessage (.Yield 1 [] none (some []))) =
      .ok (.Yield 1 [] (some []) (some [])) ∧
    Message.Yield 1 [] (some []) (some []) ≠ .Yield 1 [] none (some []) := by
  constructor
  · rfl
  · intro h
    simp at h

/-- C2 amended: decoding the encoding of any in-scope message `m` — under
the serde data model that both the JSON and the MessagePack framings
render faithfully — yields `m.normalize`: exactly `m` whenever `m` does
not pair absent args with present kwargs, and otherwise `m` with its args
replaced by the explicit empty list. -/
theorem C2_roundtrip (m : Message) :
    decodeMessage (encodeMessage m) = .ok m.normalize ∧
    (m.tailNormal → m.normalize = m) := by
  constructor
  · cases m <;>
      simp [encodeMessage, decodeMessage, Message.normalize, bind, Except.bind,
        decodeId_int, decodeDict_encode, decodeReason_encode, decodeErrorType_encode,
        decodeMatchOptions_encode, decodePublishOptions_encode, decodeEventDetails_encode,
        decodeInvocationDetails_encode, parseTail_encodeTail, decodeUri]
  · cases m <;> simp [Message.tailNormal, Message.normalize] <;>
      (try rename_i args kwargs) <;>
      cases kwargs <;> cases args <;> simp [normTail, Option.getD]

end WampRs

namespace WampRs

/-- Witness for C2_roundtrip: a YIELD with explicit args and no kwargs is
in normal form and round-trips to itself. -/
theorem C2_roundtrip_witness :
    decodeMessage (encodeMessage (.Yield 1 [] (some []) none)) =
      .ok (.Yield 1 [] (some []) none) := by
  have h := C2_roundtrip (.Yield 1 [] (some []) none)
  rw [h.1, h.2 (by simp [Message.tailNormal])]

/-! ## C4: the filter traversal -- ordering lemmas -/

/-- `klex` is reflexive. -/
theorem klex_refl (a : List Nat) : klex a a := Or.inr rfl

/-- Lexicographic order is stable under prepending a common run. -/
theorem lex_append_left {r : Nat → Nat → Prop} (k : List Nat) {s t : List Nat}
    (h : List.Lex r s t) : List.Lex r (k ++ s) (k ++ t) := by
  induction k with
  | nil => exact h
  | cons a k ih => exact List.Lex.cons ih

/-- Every position produced under `key` extends `key` properly. -/
theorem filterAnnot_key_extends :
    ∀ (rem : List String) (n : PatternNode) (key : List Nat)
      (x : List Nat × DataWrapper), x ∈ n.filterAnnot rem key →
      ∃ s, s ≠ [] ∧ x.1 = key ++ s := by
  intro rem
  induction rem with
  | nil =>
      intro n key x hx
      rcases List.mem_append.mp hx with h | h
      · rcases List.mem_map.mp h with ⟨w, _, rfl⟩
        exact ⟨[0], by simp, rfl⟩
      · rcases List.mem_map.mp h with ⟨w, _, rfl⟩
        exact ⟨[1], by simp, rfl⟩
  | cons f rest ih =>
      intro n key x hx
      rcases List.mem_append.mp hx with h | h
      · rcases List.mem_map.mp h with ⟨w, _, rfl⟩
        exact ⟨[0], by simp, rfl⟩
      · rcases List.mem_append.mp h with h | h
        · revert h
          cases hw : lookupEdge n.edges "" with
          | none => intro h; cases h
          | some child =>
              intro h
              obtain ⟨s, hs, hx1⟩ := ih child (key ++ [1]) x h
              exact ⟨[1] ++ s, by simp, by simpa using hx1⟩
        · revert h
          cases hw : lookupEdge n.edges f with
          | none => intro h; cases h
          | some child =>
              intro h
              obtain ⟨s, hs, hx1⟩ := ih child (key ++ [2]) x h
              exact ⟨[2] ++ s, by simp, by simpa using hx1⟩

/-- Positions under `key ++ [a]` come lexicographically after the position
`key ++ [b]` whenever `b < a`, whatever their tails. -/
theorem klex_block {key : List Nat} {a b : Nat} {s : List Nat} (hba : b < a) :
    klex (key ++ [b]) (key ++ ([a] ++ s)) :=
  Or.inl (lex_append_left key (List.Lex.rel hba))

/-- The annotated traversal yields its results in nondecreasing
lexicographic position order: prefix-bag entries of a node come before
everything beneath it, and the wildcard subtree comes before the strict
subtree at the same depth. -/
theorem filterAnnot_sorted :
    ∀ (rem : List String) (n : PatternNode) (key : List Nat),
      List.Pairwise (fun x y => klex x.1 y.1) (n.filterAnnot rem key) := by
  intro rem
  induction rem with
  | nil =>
      intro n key
      rw [PatternNode.filterAnnot]
      rw [List.pairwise_append]
      refine ⟨?_, ?_, ?_⟩
      · rw [List.pairwise_map]
        exact List.pairwise_of_forall (fun _ _ => klex_refl _)
      · rw [List.pairwise_map]
        exact List.pairwise_of_forall (fun _ _ => klex_refl _)
      · intro x hx y hy
        rcases List.mem_map.mp hx with ⟨w, _, rfl⟩
        rcases List.mem_map.mp hy with ⟨v, _, rfl⟩
        exact Or.inl (lex_append_left key (List.Lex.rel (by norm_num)))
  | cons f rest ih =>
      intro n key
      rw [PatternNode.filterAnnot]
      rw [List.pairwise_append]
      refine ⟨?_, ?_, ?_⟩
      · rw [List.pairwise_map]
        exact List.pairwise_of_forall (fun _ _ => klex_refl _)
      · rw [List.pairwise_append]
        refine ⟨?_, ?_, ?_⟩
        · cases hw : lookupEdge n.edges "" with
          | none => exact List.Pairwise.nil
          | some child => exact ih child (key ++ [1])
        · cases hs : lookupEdge n.edges f with
          | none => exact List.Pairwise.nil
          | some child => exact ih child (key ++ [2])
        · intro x hx y hy
          have hx2 : ∃ s, s ≠ [] ∧ x.1 = (key ++ [1]) ++ s := by
            revert hx
            cases hw : lookupEdge n.edges "" with
            | none => intro hx; cases hx
            | some child => exact fun hx => filterAnnot_key_extends rest child _ x hx
          have hy2 : ∃ s, s ≠ [] ∧ y.1 = (key ++ [2]) ++ s := by
            revert hy
            cases hs : lookupEdge n.edges f with
            | none => intro hy; cases hy
            | some child => exact fun hy => filterAnnot_key_extends rest child _ y hy
          obtain ⟨s, _, hxs⟩ := hx2
          obtain ⟨t, _, hyt⟩ := hy2
          rw [hxs, hyt]
          refine Or.inl ?_
          have : List.Lex (· < ·) ([1] ++ s) ([2] ++ t) := List.Lex.rel (by norm_num)
          simpa using lex_append_left key this
      · intro x hx y hy
        rcases List.mem_map.mp hx with ⟨w, _, rfl⟩
        rcases List.mem_append.mp hy with h | h
        · have hy2 : ∃ s, s ≠ [] ∧ y.1 = (key ++ [1]) ++ s := by
            revert h
            cases hw : lookupEdge n.edges "" with
            | none => intro h; cases h
            | some child => exact fun h => filterAnnot_key_extends rest child _ y h
          obtain ⟨s, _, hys⟩ := hy2
          rw [hys]
          have : List.Lex (· < ·) [0] ([1] ++ s) := List.Lex.rel (by norm_num)
          exact Or.inl (by simpa using lex_append_left key this)
        · have hy2 : ∃ s, s ≠ [] ∧ y.1 = (key ++ [2]) ++ s := by
            revert h
            cases hs : lookupEdge n.edges f with
            | none => intro h; cases h
            | some child => exact fun h => filterAnnot_key_extends rest child _ y h
          obtain ⟨s, _, hys⟩ := hy2
          rw [hys]
          have : List.Lex (· < ·) [0] ([2] ++ s) := List.Lex.rel (by norm_num)
          exact Or.inl (by simpa using lex_append_left key this)

/-- Dropping the positions from the annotated traversal and keeping the
(subscriber, policy) payload recovers `filterBits`. -/
theorem filterAnnot_proj :
    ∀ (rem : List String) (n : PatternNode) (key : List Nat),
      (n.filterAnnot rem key).map (fun x => (x.2.subscriber, x.2.policy)) =
        (n.filterBits rem).map (fun y => (y.1, y.2.2)) := by
  intro rem
  induction rem with
  | nil =>
      intro n key
      rw [PatternNode.filterAnnot, PatternNode.filterBits]
      simp [Function.comp_def]
  | cons f rest ih =>
      intro n key
      rw [PatternNode.filterAnnot, PatternNode.filterBits]
      simp only [List.map_append]
      congr 1
      · simp [Function.comp_def]
      · congr 1
        · cases hw : lookupEdge n.edges "" with
          | none => rfl
          | some child => exact ih child (key ++ [1])
        · cases hs : lookupEdge n.edges f with
          | none => rfl
          | some child => exact ih child (key ++ [2])

end WampRs

namespace WampRs

/-! ## C4: structural lemmas about the trie -/

/-- `storedEntries` through the accessors. -/
theorem storedEntries_eq (n : PatternNode) :
    n.storedEntries =
      (n.prefix_connections.map fun w => ([], true, w)) ++
      (n.connections.map fun w => ([], false, w)) ++
      storedEntriesOfEdges n.edges := by
  cases n
  rfl

/-- `storedEntriesOfEdges` distributes over append. -/
theorem storedEntriesOfEdges_append (a b : List (String × PatternNode)) :
    storedEntriesOfEdges (a ++ b) = storedEntriesOfEdges a ++ storedEntriesOfEdges b := by
  induction a with
  | nil => rfl
  | cons p rest ih =>
      obtain ⟨k, c⟩ := p
      simp [storedEntriesOfEdges, ih]

/-- Entries below edges come from some edge, with its label consed on. -/
theorem mem_storedEntriesOfEdges {es : List (String × PatternNode)}
    {e : List String × Bool × DataWrapper} (h : e ∈ storedEntriesOfEdges es) :
    ∃ k c e', (k, c) ∈ es ∧ e' ∈ c.storedEntries ∧ e = (k :: e'.1, e'.2) := by
  induction es with
  | nil => cases h
  | cons p rest ih =>
      obtain ⟨k, c⟩ := p
      rcases List.mem_append.mp h with h | h
      · rcases List.mem_map.mp h with ⟨e', he', rfl⟩
        exact ⟨k, c, e', List.mem_cons_self _ _, he', rfl⟩
      · obtain ⟨k', c', e', hm, he', rfl⟩ := ih h
        exact ⟨k', c', e', List.mem_cons_of_mem _ hm, he', rfl⟩

/-- Conversely, a child's entry appears below the edges with the label
consed on. -/
theorem mem_storedEntriesOfEdges_of_child {es : List (String × PatternNode)}
    {k : String} {c : PatternNode} (hm : (k, c) ∈ es)
    {e : List String × Bool × DataWrapper} (he : e ∈ c.storedEntries) :
    (k :: e.1, e.2) ∈ storedEntriesOfEdges es := by
  induction es with
  | nil => cases hm
  | cons p rest ih =>
      obtain ⟨k', c'⟩ := p
      rcases List.mem_cons.mp hm with h | h
      · cases h
        simp only [storedEntriesOfEdges]
        exact List.mem_append.mpr (Or.inl (List.mem_map.mpr ⟨e, he, rfl⟩))
      · simp only [storedEntriesOfEdges]
        exact List.mem_append.mpr (Or.inr (ih h))

/-- A successful lookup returns an edge of the list. -/
theorem lookupEdge_mem {es : List (String × PatternNode)} {k : String} {c : PatternNode}
    (h : lookupEdge es k = some c) : (k, c) ∈ es := by
  induction es with
  | nil => cases h
  | cons p rest ih =>
      obtain ⟨k', c'⟩ := p
      by_cases hk : k' = k
      · subst hk
        simp [lookupEdge] at h
        subst h
        exact List.mem_cons_self _ _
      · simp [lookupEdge, hk] at h
        exact List.mem_cons_of_mem _ (ih h)

/-- A failed lookup means no edge carries the key. -/
theorem lookupEdge_none {es : List (String × PatternNode)} {k : String}
    (h : lookupEdge es k = none) : ∀ c, (k, c) ∉ es := by
  induction es with
  | nil => intro c hc; cases hc
  | cons p rest ih =>
      obtain ⟨k', c'⟩ := p
      by_cases hk : k' = k
      · subst hk; simp [lookupEdge] at h
      · simp [lookupEdge, hk] at h
        intro c hc
        rcases List.mem_cons.mp hc with hc | hc
        · injection hc with h1 _; exact hk h1.symm
        · exact ih h c hc

/-- A key absent from the labels looks up to nothing. -/
theorem lookupEdge_eq_none {es : List (String × PatternNode)} {k : String}
    (h : k ∉ es.map Prod.fst) : lookupEdge es k = none := by
  induction es with
  | nil => rfl
  | cons p rest ih =>
      obtain ⟨k', c'⟩ := p
      have h1 : k' ≠ k := by
        intro e
        exact h (by simp [e])
      have h2 : k ∉ rest.map Prod.fst := by
        intro e
        exact h (by simp [e])
      simp [lookupEdge, h1, ih h2]

/-- `setEdge` keeps the labels. -/
theorem map_fst_setEdge (es : List (String × PatternNode)) (k : String) (v : PatternNode) :
    (setEdge es k v).map Prod.fst = es.map Prod.fst := by
  induction es with
  | nil => rfl
  | cons p rest ih =>
      obtain ⟨k', c'⟩ := p
      by_cases hk : k' = k <;> simp [setEdge, hk, ih]

/-- An edge of `setEdge es k v` is an old edge or the updated one. -/
theorem mem_setEdge {es : List (String × PatternNode)} {k : String} {v : PatternNode}
    {p : String × PatternNode} (h : p ∈ setEdge es k v) : p ∈ es ∨ p = (k, v) := by
  induction es with
  | nil => cases h
  | cons q rest ih =>
      obtain ⟨k', c'⟩ := q
      by_cases hk : k' = k
      · subst hk
        simp only [setEdge, if_pos rfl] at h
        rcases List.mem_cons.mp h with h | h
        · exact Or.inr h
        · exact Or.inl (List.mem_cons_of_mem _ h)
      · simp only [setEdge, if_neg hk] at h
        rcases List.mem_cons.mp h with h | h
        · exact Or.inl (h ▸ List.mem_cons_self _ _)
        · rcases ih h with h | h
          · exact Or.inl (List.mem_cons_of_mem _ h)
          · exact Or.inr h

/-- The edge-label list of a well-formed node has no duplicates. -/
theorem PatternNode.WF.nodup {n : PatternNode} (h : n.WF) :
    (n.edges.map Prod.fst).Nodup := by
  cases h
  assumption

/-- Children of a well-formed node are well-formed. -/
theorem PatternNode.WF.child {n : PatternNode} (h : n.WF) {k : String} {c : PatternNode}
    (hm : (k, c) ∈ n.edges) : c.WF := by
  cases h with
  | mk hn hc => exact hc _ hm

end WampRs

namespace WampRs

/-! ## C4: evaluation of the matching predicate -/

/-- No nonempty pattern matches the exhausted URI. -/
theorem policyMatches_cons_nil (k : String) (p : List String) (pol : MatchingPolicy) :
    policyMatches (k :: p) pol [] = false := by
  cases pol <;> rfl

/-- Every pattern matches along its own leading fragment. -/
theorem policyMatches_cons_same (f : String) (p rest : List String) (pol : MatchingPolicy) :
    policyMatches (f :: p) pol (f :: rest) = policyMatches p pol rest := by
  cases pol <;> simp [policyMatches, wildcardMatches, List.isPrefixOf, List.cons_beq_cons]

/-- A pattern whose leading fragment is neither empty nor the URI's leading
fragment matches under no policy. -/
theorem policyMatches_cons_other {k f : String} (hk : k ≠ "") (hkf : k ≠ f)
    (p rest : List String) (pol : MatchingPolicy) :
    policyMatches (k :: p) pol (f :: rest) = false := by
  cases pol <;> simp [policyMatches, wildcardMatches, List.isPrefixOf,
    List.cons_beq_cons, hk, hkf]

/-- A wildcard pattern entering through the empty fragment matches iff its
tail matches the rest of the URI. -/
theorem policyMatches_empty_wildcard (p rest : List String) (f : String) :
    policyMatches ("" :: p) .Wildcard (f :: rest) = policyMatches p .Wildcard rest := by
  simp [policyMatches, wildcardMatches]

/-- A good entry sitting below the empty-string edge has the Wildcard
policy and lives in the exact-match bag. -/
theorem goodEntry_empty_edge {p : List String} {b : Bool} {w : DataWrapper}
    (h : goodEntry ("" :: p, b, w)) : w.policy = .Wildcard ∧ b = false := by
  obtain ⟨h1, h2, h3⟩ := h
  have hw : w.policy = .Wildcard := by
    by_contra hne
    exact (h3 hne "" (List.mem_cons_self _ _)) rfl
  refine ⟨hw, ?_⟩
  cases b
  · rfl
  · exact absurd (hw ▸ h1 rfl) (by simp)

end WampRs

namespace WampRs

/-! ## C4: preservation of the invariant by the trie operations -/

/-- A fresh node stores nothing. -/
theorem storedEntries_new (gen : Nat) : (PatternNode.new gen).1.storedEntries = [] := rfl

/-- A fresh node is well-formed. -/
theorem WF_new (gen : Nat) : (PatternNode.new gen).1.WF := by
  refine PatternNode.WF.mk List.nodup_nil ?_
  intro p hp
  cases hp

/-- A successful `add_subscription` saw no empty fragment unless the
policy is Wildcard (the per-fragment check). -/
theorem add_ok_bits :
    ∀ (bits : List String) (n : PatternNode) (sub : Nat) (pol : MatchingPolicy)
      (gen : Nat) (i : ID) (n' : PatternNode) (gen' : Nat),
      n.add_subscription bits sub pol gen = .ok (i, n', gen') →
      pol ≠ .Wildcard → ∀ f ∈ bits, f ≠ "" := by
  intro bits
  induction bits with
  | nil =>
      intro n sub pol gen i n' gen' h hp f hf
      cases hf
  | cons bit rest ih =>
      intro n sub pol gen i n' gen' h hp f hf
      simp only [PatternNode.add_subscription] at h
      split at h
      · cases h
      · rename_i hc
        have hbit : bit ≠ "" := by
          intro hb
          exact hc ⟨by simp [hb], hp⟩
        rcases List.mem_cons.mp hf with rfl | hf
        · exact hbit
        · split at h
          · rename_i child hl
            split at h
            · rename_i i₀ child' gen₀ hr
              exact ih child sub pol gen i₀ child' gen₀ hr hp f hf
            · cases h
          · split at h
            · rename_i i₀ child' gen₀ hr
              exact ih _ sub pol _ i₀ child' gen₀ hr hp f hf
            · cases h

end WampRs

namespace WampRs

/-- Entries of a node with its prefix bag replaced. -/
theorem storedEntries_withPrefixConnections (n : PatternNode) (p : List DataWrapper) :
    (n.withPrefixConnections p).storedEntries =
      (p.map fun w => ([], true, w)) ++ (n.connections.map fun w => ([], false, w)) ++
        storedEntriesOfEdges n.edges := by
  cases n
  rfl

/-- Entries of a node with its exact bag replaced. -/
theorem storedEntries_withConnections (n : PatternNode) (c : List DataWrapper) :
    (n.withConnections c).storedEntries =
      (n.prefix_connections.map fun w => ([], true, w)) ++ (c.map fun w => ([], false, w)) ++
        storedEntriesOfEdges n.edges := by
  cases n
  rfl

/-- Entries of a node with its edges replaced. -/
theorem storedEntries_withEdges (n : PatternNode) (es : List (String × PatternNode)) :
    (n.withEdges es).storedEntries =
      (n.prefix_connections.map fun w => ([], true, w)) ++
        (n.connections.map fun w => ([], false, w)) ++ storedEntriesOfEdges es := by
  cases n
  rfl

/-- Replacing a bag does not change well-formedness. -/
theorem WF_withConnections {n : PatternNode} (h : n.WF) (c : List DataWrapper) :
    (n.withConnections c).WF := by
  cases n
  cases h with
  | mk h1 h2 => exact PatternNode.WF.mk h1 h2

/-- Replacing the prefix bag does not change well-formedness. -/
theorem WF_withPrefixConnections {n : PatternNode} (h : n.WF) (p : List DataWrapper) :
    (n.withPrefixConnections p).WF := by
  cases n
  cases h with
  | mk h1 h2 => exact PatternNode.WF.mk h1 h2

/-- A node with replaced edges is well-formed when the new edges are. -/
theorem WF_withEdges {n : PatternNode} {es : List (String × PatternNode)}
    (h1 : (es.map Prod.fst).Nodup) (h2 : ∀ p ∈ es, p.2.WF) : (n.withEdges es).WF := by
  cases n
  exact PatternNode.WF.mk h1 h2

/-- Entries below updated edges are old entries or entries of the new
child, reached along the updated key. -/
theorem mem_storedEntries_setEdge {es : List (String × PatternNode)} {k : String}
    {v : PatternNode} {e : List String × Bool × DataWrapper}
    (h : e ∈ storedEntriesOfEdges (setEdge es k v)) :
    e ∈ storedEntriesOfEdges es ∨ ∃ e', e' ∈ v.storedEntries ∧ e = (k :: e'.1, e'.2) := by
  obtain ⟨k₁, c₁, e', hm, he', rfl⟩ := mem_storedEntriesOfEdges h
  rcases mem_setEdge hm with hm | hm
  · exact Or.inl (mem_storedEntriesOfEdges_of_child hm he')
  · injection hm with h1 h2
    subst h1
    subst h2
    exact Or.inr ⟨e', he', rfl⟩

end WampRs

namespace WampRs

/-- Every entry after a successful `add_subscription` is an old entry or
the freshly appended one: path = the walked fragments, bag = the prefix
bag iff the policy is Prefix, wrapper = (subscriber, policy). -/
theorem add_entries :
    ∀ (bits : List String) (n : PatternNode) (sub : Nat) (pol : MatchingPolicy)
      (gen : Nat) (i : ID) (n' : PatternNode) (gen' : Nat),
      n.add_subscription bits sub pol gen = .ok (i, n', gen') →
      ∀ e ∈ n'.storedEntries,
        e ∈ n.storedEntries ∨ e = (bits, decide (pol = .Prefix), ⟨sub, pol⟩) := by
  intro bits
  induction bits with
  | nil =>
      intro n sub pol gen i n' gen' h e he
      simp only [PatternNode.add_subscription] at h
      split at h
      · rename_i hpol
        injection h with h2
        injection h2 with h3 h4
        injection h4 with h5 h6
        subst h5
        rw [storedEntries_withPrefixConnections, List.map_append] at he
        rw [storedEntries_eq]
        simp only [List.mem_append] at he ⊢
        rcases he with ((he | he) | he) | he
        · exact Or.inl (Or.inl (Or.inl he))
        · simp only [List.map_cons, List.map_nil, List.mem_singleton] at he
          exact Or.inr (by simp [he, hpol])
        · exact Or.inl (Or.inl (Or.inr he))
        · exact Or.inl (Or.inr he)
      · rename_i hpol
        injection h with h2
        injection h2 with h3 h4
        injection h4 with h5 h6
        subst h5
        rw [storedEntries_withConnections, List.map_append] at he
        rw [storedEntries_eq]
        simp only [List.mem_append] at he ⊢
        rcases he with (he | (he | he)) | he
        · exact Or.inl (Or.inl (Or.inl he))
        · exact Or.inl (Or.inl (Or.inr he))
        · simp only [List.map_cons, List.map_nil, List.mem_singleton] at he
          exact Or.inr (by simp [he, hpol])
        · exact Or.inl (Or.inr he)
  | cons bit rest ih =>
      intro n sub pol gen i n' gen' h e he
      simp only [PatternNode.add_subscription] at h
      split at h
      · cases h
      · split at h
        · rename_i child hl
          split at h
          · rename_i i₀ child' gen₀ hr
            injection h with h2
            injection h2 with h3 h4
            injection h4 with h5 h6
            subst h5
            rw [storedEntries_withEdges] at he
            rw [storedEntries_eq]
            simp only [List.mem_append] at he ⊢
            rcases he with (he | he) | he
            · exact Or.inl (Or.inl (Or.inl he))
            · exact Or.inl (Or.inl (Or.inr he))
            · rcases mem_storedEntries_setEdge he with he | he
              · exact Or.inl (Or.inr he)
              · obtain ⟨e', he', rfl⟩ := he
                rcases ih child sub pol gen i₀ child' gen₀ hr e' he' with h' | h'
                · exact Or.inl (Or.inr
                    (mem_storedEntriesOfEdges_of_child (lookupEdge_mem hl) h'))
                · subst h'
                  exact Or.inr rfl
          · cases h
        · rename_i hl
          split at h
          · rename_i i₀ child' gen₀ hr
            injection h with h2
            injection h2 with h3 h4
            injection h4 with h5 h6
            subst h5
            rw [storedEntries_withEdges, storedEntriesOfEdges_append] at he
            rw [storedEntries_eq]
            simp only [List.mem_append] at he ⊢
            rcases he with (he | he) | (he | he)
            · exact Or.inl (Or.inl (Or.inl he))
            · exact Or.inl (Or.inl (Or.inr he))
            · exact Or.inl (Or.inr he)
            · simp only [storedEntriesOfEdges] at he
              rw [List.append_nil] at he
              rcases List.mem_map.mp he with ⟨e', he', rfl⟩
              rcases ih _ sub pol _ i₀ child' gen₀ hr e' he' with h' | h'
              · rw [storedEntries_new] at h'
                cases h'
              · subst h'
                exact Or.inr rfl
          · cases h

end WampRs

namespace WampRs

/-- `add_subscription` keeps the trie well-formed. -/
theorem add_WF :
    ∀ (bits : List String) (n : PatternNode) (sub : Nat) (pol : MatchingPolicy)
      (gen : Nat) (i : ID) (n' : PatternNode) (gen' : Nat),
      n.add_subscription bits sub pol gen = .ok (i, n', gen') → n.WF → n'.WF := by
  intro bits
  induction bits with
  | nil =>
      intro n sub pol gen i n' gen' h hwf
      simp only [PatternNode.add_subscription] at h
      split at h <;>
      · injection h with h2
        injection h2 with h3 h4
        injection h4 with h5 h6
        subst h5
        first
        | exact WF_withPrefixConnections hwf _
        | exact WF_withConnections hwf _
  | cons bit rest ih =>
      intro n sub pol gen i n' gen' h hwf
      simp only [PatternNode.add_subscription] at h
      split at h
      · cases h
      · split at h
        · rename_i child hl
          split at h
          · rename_i i₀ child' gen₀ hr
            injection h with h2
            injection h2 with h3 h4
            injection h4 with h5 h6
            subst h5
            refine WF_withEdges ?_ ?_
            · rw [map_fst_setEdge]
              exact hwf.nodup
            · intro p hp
              rcases mem_setEdge hp with hp | hp
              · exact hwf.child hp
              · rw [hp]
                exact ih child sub pol gen i₀ child' gen₀ hr
                  (hwf.child (lookupEdge_mem hl))
          · cases h
        · rename_i hl
          split at h
          · rename_i i₀ child' gen₀ hr
            injection h with h2
            injection h2 with h3 h4
            injection h4 with h5 h6
            subst h5
            refine WF_withEdges ?_ ?_
            · rw [List.map_append]
              simp only [List.map_cons, List.map_nil]
              rw [List.nodup_append]
              refine ⟨hwf.nodup, List.nodup_singleton _, ?_⟩
              intro a ha hb
              rcases List.mem_singleton.mp hb with rfl
              have : lookupEdge n.edges a = none := hl
              rcases List.mem_map.mp ha with ⟨p, hp, rfl⟩
              exact lookupEdge_none this p.2 (by simpa using hp)
            · intro p hp
              rcases List.mem_append.mp hp with hp | hp
              · exact hwf.child hp
              · rcases List.mem_singleton.mp hp with rfl
                exact ih _ sub pol _ i₀ child' gen₀ hr (WF_new gen)
          · cases h

end WampRs

namespace WampRs

/-- As `add_entries`, for `subscribe_with` (the first fragment is walked
without the emptiness check, the rest via `add_subscription`). -/
theorem subscribe_entries {bits : List String} {n : PatternNode} {sub : Nat}
    {pol : MatchingPolicy} {gen : Nat} {i : ID} {n' : PatternNode} {gen' : Nat}
    (h : n.subscribe_with bits sub pol gen = .ok (i, n', gen')) :
    ∀ e ∈ n'.storedEntries,
      e ∈ n.storedEntries ∨ e = (bits, decide (pol = .Prefix), ⟨sub, pol⟩) := by
  intro e he
  cases bits with
  | nil => cases h
  | cons bit rest =>
      simp only [PatternNode.subscribe_with] at h
      split at h
      · rename_i child hl
        split at h
        · rename_i i₀ child' gen₀ hr
          injection h with h2
          injection h2 with h3 h4
          injection h4 with h5 h6
          subst h5
          rw [storedEntries_withEdges] at he
          rw [storedEntries_eq]
          simp only [List.mem_append] at he ⊢
          rcases he with (he | he) | he
          · exact Or.inl (Or.inl (Or.inl he))
          · exact Or.inl (Or.inl (Or.inr he))
          · rcases mem_storedEntries_setEdge he with he | he
            · exact Or.inl (Or.inr he)
            · obtain ⟨e', he', rfl⟩ := he
              rcases add_entries rest child sub pol gen i₀ child' gen₀ hr e' he' with h' | h'
              · exact Or.inl (Or.inr
                  (mem_storedEntriesOfEdges_of_child (lookupEdge_mem hl) h'))
              · subst h'
                exact Or.inr rfl
        · cases h
      · rename_i hl
        split at h
        · rename_i i₀ child' gen₀ hr
          injection h with h2
          injection h2 with h3 h4
          injection h4 with h5 h6
          subst h5
          rw [storedEntries_withEdges, storedEntriesOfEdges_append] at he
          rw [storedEntries_eq]
          simp only [List.mem_append] at he ⊢
          rcases he with (he | he) | (he | he)
          · exact Or.inl (Or.inl (Or.inl he))
          · exact Or.inl (Or.inl (Or.inr he))
          · exact Or.inl (Or.inr he)
          · simp only [storedEntriesOfEdges] at he
            rw [List.append_nil] at he
            rcases List.mem_map.mp he with ⟨e', he', rfl⟩
            rcases add_entries rest _ sub pol _ i₀ child' gen₀ hr e' he' with h' | h'
            · rw [storedEntries_new] at h'
              cases h'
            · subst h'
              exact Or.inr rfl
        · cases h

/-- `subscribe_with` keeps the trie well-formed. -/
theorem subscribe_WF {bits : List String} {n : PatternNode} {sub : Nat}
    {pol : MatchingPolicy} {gen : Nat} {i : ID} {n' : PatternNode} {gen' : Nat}
    (h : n.subscribe_with bits sub pol gen = .ok (i, n', gen')) (hwf : n.WF) : n'.WF := by
  cases bits with
  | nil => cases h
  | cons bit rest =>
      simp only [PatternNode.subscribe_with] at h
      split at h
      · rename_i child hl
        split at h
        · rename_i i₀ child' gen₀ hr
          injection h with h2
          injection h2 with h3 h4
          injection h4 with h5 h6
          subst h5
          refine WF_withEdges ?_ ?_
          · rw [map_fst_setEdge]
            exact hwf.nodup
          · intro p hp
            rcases mem_setEdge hp with hp | hp
            · exact hwf.child hp
            · rw [hp]
              exact add_WF rest child sub pol gen i₀ child' gen₀ hr
                (hwf.child (lookupEdge_mem hl))
        · cases h
      · rename_i hl
        split at h
        · rename_i i₀ child' gen₀ hr
          injection h with h2
          injection h2 with h3 h4
          injection h4 with h5 h6
          subst h5
          refine WF_withEdges ?_ ?_
          · rw [List.map_append]
            simp only [List.map_cons, List.map_nil]
            rw [List.nodup_append]
            refine ⟨hwf.nodup, List.nodup_singleton _, ?_⟩
            intro a ha hb
            rcases List.mem_singleton.mp hb with rfl
            rcases List.mem_map.mp ha with ⟨p, hp, rfl⟩
            exact lookupEdge_none hl p.2 (by simpa using hp)
          · intro p hp
            rcases List.mem_append.mp hp with hp | hp
            · exact hwf.child hp
            · rcases List.mem_singleton.mp hp with rfl
              exact add_WF rest _ sub pol _ i₀ child' gen₀ hr (WF_new gen)
        · cases h

/-- The fragments beyond the first of a successful non-Wildcard
`subscribe_with` are nonempty (they went through the check). -/
theorem subscribe_ok_tail {bits : List String} {n : PatternNode} {sub : Nat}
    {pol : MatchingPolicy} {gen : Nat} {i : ID} {n' : PatternNode} {gen' : Nat}
    (h : n.subscribe_with bits sub pol gen = .ok (i, n', gen'))
    (hp : pol ≠ .Wildcard) : ∀ f ∈ bits.drop 1, f ≠ "" := by
  cases bits with
  | nil => cases h
  | cons bit rest =>
      simp only [PatternNode.subscribe_with] at h
      intro f hf
      simp only [List.drop_succ_cons, List.drop_zero] at hf
      split at h
      · rename_i child hl
        split at h
        · rename_i i₀ child' gen₀ hr
          exact add_ok_bits rest child sub pol gen i₀ child' gen₀ hr hp f hf
        · cases h
      · split at h
        · rename_i i₀ child' gen₀ hr
          exact add_ok_bits rest _ sub pol _ i₀ child' gen₀ hr hp f hf
        · cases h

/-- `remove_subscription` only removes entries. -/
theorem remove_entries :
    ∀ (bits : List String) (n : PatternNode) (sid : Nat) (bag : Bool)
      (i : ID) (n' : PatternNode),
      n.remove_subscription bits sid bag = .ok (i, n') →
      ∀ e ∈ n'.storedEntries, e ∈ n.storedEntries := by
  intro bits
  induction bits with
  | nil =>
      intro n sid bag i n' h e he
      simp only [PatternNode.remove_subscription] at h
      split at h <;>
      · injection h with h2
        injection h2 with h3 h5
        subst h5
        rw [storedEntries_eq]
        simp only [List.mem_append]
        first
        | · rw [storedEntries_withPrefixConnections] at he
            simp only [List.mem_append] at he
            rcases he with (he | he) | he
            · rcases List.mem_map.mp he with ⟨w, hw, rfl⟩
              exact Or.inl (Or.inl (List.mem_map.mpr ⟨w, List.mem_of_mem_filter hw, rfl⟩))
            · exact Or.inl (Or.inr he)
            · exact Or.inr he
        | · rw [storedEntries_withConnections] at he
            simp only [List.mem_append] at he
            rcases he with (he | he) | he
            · exact Or.inl (Or.inl he)
            · rcases List.mem_map.mp he with ⟨w, hw, rfl⟩
              exact Or.inl (Or.inr (List.mem_map.mpr ⟨w, List.mem_of_mem_filter hw, rfl⟩))
            · exact Or.inr he
  | cons bit rest ih =>
      intro n sid bag i n' h e he
      simp only [PatternNode.remove_subscription] at h
      split at h
      · rename_i edge hl
        split at h
        · rename_i i₀ edge' hr
          injection h with h2
          injection h2 with h3 h5
          subst h5
          rw [storedEntries_withEdges] at he
          rw [storedEntries_eq]
          simp only [List.mem_append] at he ⊢
          rcases he with (he | he) | he
          · exact Or.inl (Or.inl he)
          · exact Or.inl (Or.inr he)
          · rcases mem_storedEntries_setEdge he with he | he
            · exact Or.inr he
            · obtain ⟨e', he', rfl⟩ := he
              exact Or.inr (mem_storedEntriesOfEdges_of_child (lookupEdge_mem hl)
                (ih edge sid bag i₀ edge' hr e' he'))
        · cases h
      · cases h

/-- `remove_subscription` keeps the trie well-formed. -/
theorem remove_WF :
    ∀ (bits : List String) (n : PatternNode) (sid : Nat) (bag : Bool)
      (i : ID) (n' : PatternNode),
      n.remove_subscription bits sid bag = .ok (i, n') → n.WF → n'.WF := by
  intro bits
  induction bits with
  | nil =>
      intro n sid bag i n' h hwf
      simp only [PatternNode.remove_subscription] at h
      split at h <;>
      · injection h with h2
        injection h2 with h3 h5
        subst h5
        first
        | exact WF_withPrefixConnections hwf _
        | exact WF_withConnections hwf _
  | cons bit rest ih =>
      intro n sid bag i n' h hwf
      simp only [PatternNode.remove_subscription] at h
      split at h
      · rename_i edge hl
        split at h
        · rename_i i₀ edge' hr
          injection h with h2
          injection h2 with h3 h5
          subst h5
          refine WF_withEdges ?_ ?_
          · rw [map_fst_setEdge]
            exact hwf.nodup
          · intro p hp
            rcases mem_setEdge hp with hp | hp
            · exact hwf.child hp
            · rw [hp]
              exact ih edge sid bag i₀ edge' hr (hwf.child (lookupEdge_mem hl))
        · cases h
      · cases h

end WampRs

namespace WampRs

/-- A fresh root satisfies the invariant. -/
theorem goodNode_new (gen : Nat) : goodNode (PatternNode.new gen).1 := by
  refine ⟨WF_new gen, ?_⟩
  rw [storedEntries_new]
  intro e he
  cases he

/-- A successful `subscribe_with` whose first fragment is nonempty (unless
the policy is Wildcard) preserves the invariant. -/
theorem subscribe_goodNode {bits : List String} {n : PatternNode} {sub : Nat}
    {pol : MatchingPolicy} {gen : Nat} {i : ID} {n' : PatternNode} {gen' : Nat}
    (h : n.subscribe_with bits sub pol gen = .ok (i, n', gen')) (hg : goodNode n)
    (hfirst : pol ≠ .Wildcard → ∀ f ∈ bits.take 1, f ≠ "") : goodNode n' := by
  refine ⟨subscribe_WF h hg.1, ?_⟩
  intro e he
  rcases subscribe_entries h e he with h' | h'
  · exact hg.2 e h'
  · subst h'
    refine ⟨?_, ?_, ?_⟩
    · intro hb
      exact of_decide_eq_true hb
    · intro hb
      exact of_decide_eq_false hb
    · intro hnw f hf
      have := List.take_append_drop 1 bits
      rw [← this] at hf
      rcases List.mem_append.mp hf with hf | hf
      · exact hfirst hnw f hf
      · exact subscribe_ok_tail h hnw f hf

/-- One trie operation preserves the invariant. -/
theorem applyOp_goodNode (st : PatternNode × Nat) (op : TrieOp) (hop : op.wf)
    (hg : goodNode st.1) : goodNode (applyOp st op).1 := by
  cases op with
  | subscribe bits sub pol =>
      simp only [applyOp]
      split
      · rename_i i n' gen' h
        exact subscribe_goodNode h hg hop
      · exact hg
  | unsubscribe bits sid bag =>
      simp only [applyOp, PatternNode.unsubscribe_with]
      split
      · rename_i i n' h
        exact ⟨remove_WF bits st.1 sid bag i n' h hg.1,
          fun e he => hg.2 e (remove_entries bits st.1 sid bag i n' h e he)⟩
      · exact hg

/-- Every interleaving of well-formed operations preserves the invariant. -/
theorem applyOps_goodNode (ops : List TrieOp) :
    ∀ st : PatternNode × Nat, (∀ op ∈ ops, op.wf) → goodNode st.1 →
      goodNode (applyOps ops st).1 := by
  induction ops with
  | nil =>
      intro st _ hg
      exact hg
  | cons op rest ih =>
      intro st hops hg
      simp only [applyOps, List.foldl_cons]
      exact ih (applyOp st op) (fun o ho => hops o (List.mem_cons_of_mem _ ho))
        (applyOp_goodNode st op (hops op (List.mem_cons_self _ _)) hg)

end WampRs

namespace WampRs

/-- Every policy matches the empty pattern against the exhausted URI. -/
theorem policyMatches_nil_nil (pol : MatchingPolicy) : policyMatches [] pol [] = true := by
  cases pol <;> rfl

/-- The empty pattern matches a nonempty URI only under Prefix. -/
theorem policyMatches_nil_cons {pol : MatchingPolicy} (h : pol ≠ .Prefix)
    (f : String) (rest : List String) : policyMatches [] pol (f :: rest) = false := by
  cases pol
  · exact absurd rfl h
  · rfl
  · rfl

/-- The empty pattern is a prefix of every URI. -/
theorem policyMatches_nil_prefix (u : List String) :
    policyMatches [] .Prefix u = true := by
  cases u <;> rfl

/-- Stripping the leading fragment of an entry's path preserves goodness. -/
theorem goodEntry_tail {k : String} {p : List String} {bw : Bool × DataWrapper}
    (h : goodEntry (k :: p, bw)) : goodEntry (p, bw) := by
  obtain ⟨h1, h2, h3⟩ := h
  exact ⟨h1, h2, fun hnw f hf => h3 hnw f (List.mem_cons_of_mem _ hf)⟩

/-- Children of a node satisfying the invariant satisfy it too. -/
theorem goodNode_child {n : PatternNode} (hg : goodNode n) {k : String} {c : PatternNode}
    (hm : (k, c) ∈ n.edges) : goodNode c := by
  refine ⟨hg.1.child hm, ?_⟩
  intro e he
  have : (k :: e.1, e.2) ∈ n.storedEntries := by
    rw [storedEntries_eq]
    exact List.mem_append.mpr (Or.inr (mem_storedEntriesOfEdges_of_child hm he))
  exact goodEntry_tail (hg.2 _ this)

/-- The matching stored entries below a list of distinct edges, counted:
only the empty-string edge and the edge labelled with the URI's leading
fragment contribute, and each contributes its child's matching entries
against the remaining fragments. -/
theorem matchingStoredEdges_count (rest : List String) {f : String} (hf : f ≠ "") :
    ∀ es : List (String × PatternNode),
      (es.map Prod.fst).Nodup →
      (∀ e ∈ storedEntriesOfEdges es, goodEntry e) →
      ∀ pr : Nat × MatchingPolicy,
        (matchingStoredEdges es (f :: rest)).count pr =
          (match lookupEdge es "" with
           | some c => (matchingStored c rest).count pr
           | none => 0) +
          (match lookupEdge es f with
           | some c => (matchingStored c rest).count pr
           | none => 0) := by
  intro es
  induction es with
  | nil =>
      intro _ _ pr
      rfl
  | cons p es' ih =>
      obtain ⟨k, c⟩ := p
      intro hnd hge pr
      have hnd' : (es'.map Prod.fst).Nodup := by
        simp only [List.map_cons, List.nodup_cons] at hnd
        exact hnd.2
      have hknot : k ∉ es'.map Prod.fst := by
        simp only [List.map_cons, List.nodup_cons] at hnd
        exact hnd.1
      have hge' : ∀ e ∈ storedEntriesOfEdges es', goodEntry e := by
        intro e he
        exact hge e (by
          simp only [storedEntriesOfEdges]
          exact List.mem_append.mpr (Or.inr he))
      have hgec : ∀ e ∈ c.storedEntries, goodEntry (k :: e.1, e.2) := by
        intro e he
        exact hge _ (by
          simp only [storedEntriesOfEdges]
          exact List.mem_append.mpr (Or.inl (List.mem_map.mpr ⟨e, he, rfl⟩)))
      have hsplit : (matchingStoredEdges ((k, c) :: es') (f :: rest)).count pr =
          (((c.storedEntries.filter fun e =>
              policyMatches (k :: e.1) e.2.2.policy (f :: rest)).map
            (fun e => (e.2.2.subscriber, e.2.2.policy))).count pr) +
          (matchingStoredEdges es' (f :: rest)).count pr := by
        simp only [matchingStoredEdges, storedEntriesOfEdges, List.filter_append,
          List.map_append, List.count_append, List.filter_map, List.map_map]
        rfl
      rw [hsplit]
      by_cases hk0 : k = ""
      · subst hk0
        have hkf : ("" : String) ≠ f := fun e => hf e.symm
        have hfilter : (c.storedEntries.filter fun e =>
            policyMatches ("" :: e.1) e.2.2.policy (f :: rest)) =
            (c.storedEntries.filter fun e => policyMatches e.1 e.2.2.policy rest) := by
          apply List.filter_congr
          intro e he
          obtain ⟨hpol, _⟩ := goodEntry_empty_edge (hgec e he)
          rw [hpol, policyMatches_empty_wildcard]
        rw [hfilter]
        have hlk0 : lookupEdge (("", c) :: es') "" = some c := by
          simp [lookupEdge]
        have hlkf : lookupEdge (("", c) :: es') f = lookupEdge es' f := by
          simp [lookupEdge, hkf]
        rw [hlk0, hlkf, ih hnd' hge' pr, lookupEdge_eq_none hknot]
        simp only [matchingStored]
        omega
      · by_cases hkf : k = f
        · subst hkf
          have hfilter : (c.storedEntries.filter fun e =>
              policyMatches (k :: e.1) e.2.2.policy (k :: rest)) =
              (c.storedEntries.filter fun e => policyMatches e.1 e.2.2.policy rest) := by
            apply List.filter_congr
            intro e _
            rw [policyMatches_cons_same]
          rw [hfilter]
          have hlk0 : lookupEdge ((k, c) :: es') "" = lookupEdge es' "" := by
            simp [lookupEdge, hk0]
          have hlkf : lookupEdge ((k, c) :: es') k = some c := by
            simp [lookupEdge]
          rw [hlk0, hlkf, ih hnd' hge' pr, lookupEdge_eq_none hknot]
          simp only [matchingStored]
          omega
        · have hfilter : (c.storedEntries.filter fun e =>
              policyMatches (k :: e.1) e.2.2.policy (f :: rest)) = [] := by
            rw [List.filter_eq_nil_iff]
            intro e _
            rw [policyMatches_cons_other hk0 hkf]
            simp
          rw [hfilter]
          have hlk0 : lookupEdge ((k, c) :: es') "" = lookupEdge es' "" := by
            simp [lookupEdge, hk0]
          have hlkf : lookupEdge ((k, c) :: es') f = lookupEdge es' f := by
            simp [lookupEdge, hkf]
          rw [hlk0, hlkf, ih hnd' hge' pr]
          simp

end WampRs

namespace WampRs

/-- The traversal yields exactly the matching stored entries, counted with
multiplicity, for every trie satisfying the invariant and every literal
URI (nonempty fragments). -/
theorem filter_count :
    ∀ (rem : List String), (∀ f ∈ rem, f ≠ "") →
      ∀ n : PatternNode, goodNode n →
        ∀ pr : Nat × MatchingPolicy,
          (outPairs n rem).count pr = (matchingStored n rem).count pr := by
  intro rem
  induction rem with
  | nil =>
      intro _ n hg pr
      obtain ⟨es, conns, pres, nid, npi⟩ := n
      have hpres : (pres.map fun w => (([] : List String), true, w)).filter
          (fun e => policyMatches e.1 e.2.2.policy []) =
          pres.map fun w => ([], true, w) := by
        apply List.filter_eq_self.mpr
        intro e he
        rcases List.mem_map.mp he with ⟨w, _, rfl⟩
        exact policyMatches_nil_nil _
      have hconns : (conns.map fun w => (([] : List String), false, w)).filter
          (fun e => policyMatches e.1 e.2.2.policy []) =
          conns.map fun w => ([], false, w) := by
        apply List.filter_eq_self.mpr
        intro e he
        rcases List.mem_map.mp he with ⟨w, _, rfl⟩
        exact policyMatches_nil_nil _
      have hedges : (storedEntriesOfEdges es).filter
          (fun e => policyMatches e.1 e.2.2.policy []) = [] := by
        apply List.filter_eq_nil_iff.mpr
        intro e he
        obtain ⟨k, c, e', _, _, rfl⟩ := mem_storedEntriesOfEdges he
        simp [policyMatches_cons_nil]
      have heq : matchingStored (.mk es conns pres nid npi) [] =
          outPairs (.mk es conns pres nid npi) [] := by
        simp only [matchingStored, outPairs, PatternNode.filterBits, PatternNode.storedEntries,
          PatternNode.prefix_connections, PatternNode.connections, PatternNode.prefix_id]
        rw [List.filter_append, List.filter_append, hpres, hconns, hedges]
        simp [List.map_map, Function.comp_def]
      rw [heq]
  | cons f rest ih =>
      intro hfr n hg pr
      have hf : f ≠ "" := hfr f (List.mem_cons_self _ _)
      have hrest : ∀ x ∈ rest, x ≠ "" := fun x hx => hfr x (List.mem_cons_of_mem _ hx)
      have hgood_edges : ∀ e ∈ storedEntriesOfEdges n.edges, goodEntry e := by
        intro e he
        refine hg.2 e ?_
        rw [storedEntries_eq]
        exact List.mem_append.mpr (Or.inr he)
      have hedgecount := matchingStoredEdges_count rest hf n.edges hg.1.nodup hgood_edges pr
      have hpres : (n.prefix_connections.map fun w => (([] : List String), true, w)).filter
          (fun e => policyMatches e.1 e.2.2.policy (f :: rest)) =
          n.prefix_connections.map fun w => ([], true, w) := by
        apply List.filter_eq_self.mpr
        intro e he
        rcases List.mem_map.mp he with ⟨w, hw, rfl⟩
        have hge : goodEntry ([], true, w) := by
          refine hg.2 _ ?_
          rw [storedEntries_eq]
          exact List.mem_append.mpr (Or.inl (List.mem_append.mpr (Or.inl
            (List.mem_map.mpr ⟨w, hw, rfl⟩))))
        show policyMatches [] w.policy (f :: rest) = true
        rw [hge.1 rfl]
        exact policyMatches_nil_prefix _
      have hconns : (n.connections.map fun w => (([] : List String), false, w)).filter
          (fun e => policyMatches e.1 e.2.2.policy (f :: rest)) = [] := by
        apply List.filter_eq_nil_iff.mpr
        intro e he
        rcases List.mem_map.mp he with ⟨w, hw, rfl⟩
        have hge : goodEntry ([], false, w) := by
          refine hg.2 _ ?_
          rw [storedEntries_eq]
          exact List.mem_append.mpr (Or.inl (List.mem_append.mpr (Or.inr
            (List.mem_map.mpr ⟨w, hw, rfl⟩))))
        show ¬ policyMatches [] w.policy (f :: rest) = true
        rw [policyMatches_nil_cons (hge.2.1 rfl) f rest]
        simp
      have hrhs : (matchingStored n (f :: rest)).count pr =
          ((n.prefix_connections.map fun w => (w.subscriber, w.policy)).count pr) +
          (matchingStoredEdges n.edges (f :: rest)).count pr := by
        simp only [matchingStored]
        rw [storedEntries_eq, List.filter_append, List.filter_append, hpres, hconns,
          List.append_nil]
        rw [List.map_append, List.count_append]
        simp only [matchingStoredEdges, List.map_map, Function.comp_def]
      have hout : outPairs n (f :: rest) =
          (n.prefix_connections.map fun w => (w.subscriber, w.policy)) ++
          (((match lookupEdge n.edges "" with
             | some child => child.filterBits rest
             | none => []) : List (Nat × ID × MatchingPolicy)).map
            fun (y : Nat × ID × MatchingPolicy) => (y.1, y.2.2)) ++
          (((match lookupEdge n.edges f with
             | some child => child.filterBits rest
             | none => []) : List (Nat × ID × MatchingPolicy)).map
            fun (y : Nat × ID × MatchingPolicy) => (y.1, y.2.2)) := by
        simp [outPairs, PatternNode.filterBits, List.map_append, List.map_map,
          Function.comp_def]
      rw [hout, hrhs, hedgecount, List.count_append, List.count_append]
      cases hw : lookupEdge n.edges "" with
      | none =>
          cases hs : lookupEdge n.edges f with
          | none => simp
          | some cs =>
              have hsch := ih hrest cs (goodNode_child hg (lookupEdge_mem hs)) pr
              simp only [outPairs] at hsch
              simp only [List.map_nil, List.count_nil, hsch]
              omega
      | some cw =>
          have hwch := ih hrest cw (goodNode_child hg (lookupEdge_mem hw)) pr
          simp only [outPairs] at hwch
          cases hs : lookupEdge n.edges f with
          | none =>
              simp only [List.map_nil, List.count_nil, hwch]
              omega
          | some cs =>
              have hsch := ih hrest cs (goodNode_child hg (lookupEdge_mem hs)) pr
              simp only [outPairs] at hsch
              simp only [hwch, hsch]
              omega

end WampRs

namespace WampRs

/-- C4 counterexample: the claim quantifies over *every* interleaving of
`subscribe_with`/`unsubscribe_with` calls.  One `subscribe_with` of the
pattern whose fragments are `[""]` (the empty URI) under Strict succeeds
(C8's unchecked first fragment), storing entry (7, Strict) at path `[""]`;
filtering the literal URI `["x"]` then yields that entry through the
empty-string edge, although the Strict pattern `[""]` does not match
`["x"]` — so `filter(u)` yields strictly more than the matching stored
entries. -/
theorem C4_counterexample :
    outPairs (applyOps [.subscribe [""] 7 .Strict] (PatternNode.new 0)).1 ["x"] =
      [(7, .Strict)] ∧
    (applyOps [.subscribe [""] 7 .Strict] (PatternNode.new 0)).1.storedEntries =
      [([""], false, ⟨7, .Strict⟩)] ∧
    policyMatches [""] .Strict ["x"] = false ∧
    matchingStored (applyOps [.subscribe [""] 7 .Strict] (PatternNode.new 0)).1 ["x"] =
      [] := by
  exact ⟨rfl, rfl, rfl, rfl⟩

/-- C4 amended: after any interleaving of `subscribe_with` and
`unsubscribe_with` operations *in which no non-Wildcard subscription uses
an empty first fragment* (the one case `subscribe_with` fails to reject),
`filter(u)` for a literal URI u (nonempty fragments) yields exactly the
multiset of stored entries whose pattern matches u under that entry's
policy; and the traversal emits them in nondecreasing traversal-position
order — prefix-bag entries of every ancestor before anything beneath it,
and the wildcard (empty-string) child before the strictly matching child
at the same depth. -/
theorem C4_filter_exact (ops : List TrieOp) (g0 : Nat) (u : List String)
    (hops : ∀ op ∈ ops, op.wf) (hu : ∀ f ∈ u, f ≠ "") :
    (∀ pr : Nat × MatchingPolicy,
        (outPairs (applyOps ops (PatternNode.new g0)).1 u).count pr =
        (matchingStored (applyOps ops (PatternNode.new g0)).1 u).count pr) ∧
    ((applyOps ops (PatternNode.new g0)).1.filterAnnot u []).map
        (fun x => (x.2.subscriber, x.2.policy)) =
      outPairs (applyOps ops (PatternNode.new g0)).1 u ∧
    List.Pairwise (fun x y => klex x.1 y.1)
      ((applyOps ops (PatternNode.new g0)).1.filterAnnot u []) := by
  have hg := applyOps_goodNode ops (PatternNode.new g0) hops (goodNode_new g0)
  refine ⟨fun pr => filter_count u hu _ hg pr, ?_, filterAnnot_sorted u _ []⟩
  simpa [outPairs] using filterAnnot_proj u (applyOps ops (PatternNode.new g0)).1 []

/-- Witness for C4_filter_exact: one Prefix subscription on pattern `a`,
filtered with the literal URI `a`. -/
theorem C4_filter_exact_witness :
    (outPairs (applyOps [.subscribe ["a"] 3 .Prefix] (PatternNode.new 0)).1
      ["a"]).count (3, .Prefix) =
    (matchingStored (applyOps [.subscribe ["a"] 3 .Prefix] (PatternNode.new 0)).1
      ["a"]).count (3, .Prefix) := by
  refine (C4_filter_exact [.subscribe ["a"] 3 .Prefix] 0 ["a"] ?_ ?_).1 (3, .Prefix)
  · intro op hop
    rcases List.mem_singleton.mp hop with rfl
    intro _ h hh
    simp at hh
    subst hh
    decide
  · intro f hf
    rcases List.mem_singleton.mp hf with rfl
    decide

end WampRs
